import Mathlib

/-!
Verification development for the course-tracking update pipeline.

The Lean definitions below are a shallow embedding of the Python sources:
`bot/formatter.py`, `bot/scheduler.py`, `services/cache.py`,
`services/scraper.py`, `services/notifier.py` and `models/*.py`.

Python `dict`s are modelled by association lists with Python's insertion
semantics: assigning to an existing key replaces the value in place
(keeping the key's original position), assigning a fresh key appends at
the end, and iteration follows this stored order.  Section records are
Python dicts with a known field set; a missing key is modelled by `none`.
-/

/-- Python dict assignment `m[k] = v`: replaces in place or appends. -/
def insertPy {α β : Type} [DecidableEq α] (k : α) (v : β) : List (α × β) → List (α × β)
  | [] => [(k, v)]
  | p :: rest => if p.1 = k then (k, v) :: rest else p :: insertPy k v rest

/-- Python dict lookup `m.get(k)`. -/
def lookupPy {α β : Type} [DecidableEq α] : List (α × β) → α → Option β
  | [], _ => none
  | p :: rest, k => if p.1 = k then some p.2 else lookupPy rest k

theorem lookupPy_insertPy_self {α β : Type} [DecidableEq α] (k : α) (v : β)
    (m : List (α × β)) : lookupPy (insertPy k v m) k = some v := by
  induction m with
  | nil => simp [insertPy, lookupPy]
  | cons p rest ih =>
    by_cases h : p.1 = k
    · simp [insertPy, h, lookupPy]
    · simp [insertPy, h, lookupPy, ih]

theorem lookupPy_insertPy_ne {α β : Type} [DecidableEq α] {k k' : α} (v : β)
    (m : List (α × β)) (h : k' ≠ k) :
    lookupPy (insertPy k v m) k' = lookupPy m k' := by
  induction m with
  | nil => simp [insertPy, lookupPy, Ne.symm h]
  | cons p rest ih =>
    by_cases hp : p.1 = k
    · simp [insertPy, hp, lookupPy, Ne.symm h]
    · simp [insertPy, hp, lookupPy, ih]

theorem insertPy_of_not_mem {α β : Type} [DecidableEq α] {k : α} (v : β)
    {m : List (α × β)} (h : k ∉ m.map Prod.fst) :
    insertPy k v m = m ++ [(k, v)] := by
  induction m with
  | nil => simp [insertPy]
  | cons p rest ih =>
    simp only [List.map_cons, List.mem_cons] at h
    push_neg at h
    simp [insertPy, Ne.symm h.1, ih h.2]

theorem map_fst_insertPy_of_mem {α β : Type} [DecidableEq α] {k : α} (v : β)
    {m : List (α × β)} (h : k ∈ m.map Prod.fst) :
    (insertPy k v m).map Prod.fst = m.map Prod.fst := by
  induction m with
  | nil => simp at h
  | cons p rest ih =>
    by_cases hp : p.1 = k
    · simp [insertPy, hp]
    · simp only [List.map_cons, List.mem_cons] at h
      rcases h with h | h

      · exact absurd h.symm hp
      · simp [insertPy, hp, ih h]

theorem mem_insertPy {α β : Type} [DecidableEq α] {k : α} {v : β}
    {m : List (α × β)} {p : α × β} (h : p ∈ insertPy k v m) :
    p = (k, v) ∨ p ∈ m := by
  induction m with
  | nil => simpa [insertPy] using h
  | cons q rest ih =>
    by_cases hq : q.1 = k
    · simp only [insertPy, hq, if_pos rfl] at h
      rcases List.mem_cons.mp h with h | h
      · exact Or.inl h
      · exact Or.inr (List.mem_cons_of_mem _ h)
    · simp only [insertPy, hq, if_neg hq] at h
      rcases List.mem_cons.mp h with h | h
      · exact Or.inr (h ▸ List.mem_cons_self _ _)
      · rcases ih h with h' | h'
        · exact Or.inl h'
        · exact Or.inr (List.mem_cons_of_mem _ h')

theorem nodup_keys_insertPy {α β : Type} [DecidableEq α] (k : α) (v : β)
    {m : List (α × β)} (h : (m.map Prod.fst).Nodup) :
    ((insertPy k v m).map Prod.fst).Nodup := by
  by_cases hk : k ∈ m.map Prod.fst
  · rw [map_fst_insertPy_of_mem v hk]; exact h
  · rw [insertPy_of_not_mem v hk, List.map_append]
    rw [List.nodup_append]
    refine ⟨h, by simp, ?_⟩
    intro a ha hb
    simp only [List.map_cons, List.map_nil, List.mem_singleton] at hb
    subst hb
    exact hk ha

theorem lookupPy_isSome_of_mem {α β : Type} [DecidableEq α]
    {m : List (α × β)} {p : α × β} (h : p ∈ m) :
    (lookupPy m p.1).isSome := by
  induction m with
  | nil => simp at h
  | cons q rest ih =>
    rcases List.mem_cons.mp h with h | h
    · subst h; simp [lookupPy]
    · by_cases hq : q.1 = p.1
      · simp [lookupPy, hq]
      · simp [lookupPy, hq, ih h]

theorem lookupPy_isSome_of_key_mem {α β : Type} [DecidableEq α]
    {m : List (α × β)} {k : α} (h : k ∈ m.map Prod.fst) :
    (lookupPy m k).isSome := by
  induction m with
  | nil => simp at h
  | cons q rest ih =>
    by_cases hq : q.1 = k
    · simp [lookupPy, hq]
    · simp only [List.map_cons, List.mem_cons] at h
      rcases h with h | h
      · exact absurd h.symm hq
      · simp [lookupPy, hq, ih h]

theorem mem_of_lookupPy_eq_some {α β : Type} [DecidableEq α]
    {m : List (α × β)} {k : α} {v : β} (h : lookupPy m k = some v) :
    (k, v) ∈ m := by
  induction m with
  | nil => simp [lookupPy] at h
  | cons q rest ih =>
    obtain ⟨qk, qv⟩ := q
    by_cases hq : qk = k
    · subst hq
      rw [lookupPy, if_pos rfl] at h
      injection h with h
      subst h
      exact List.mem_cons_self _ _
    · rw [lookupPy, if_neg hq] at h
      exact List.mem_cons_of_mem _ (ih h)

theorem lookupPy_eq_some_of_mem {α β : Type} [DecidableEq α]
    {m : List (α × β)} {p : α × β} (hnd : (m.map Prod.fst).Nodup) (h : p ∈ m) :
    lookupPy m p.1 = some p.2 := by
  induction m with
  | nil => simp at h
  | cons q rest ih =>
    simp only [List.map_cons, List.nodup_cons] at hnd
    rcases List.mem_cons.mp h with h | h
    · subst h; simp [lookupPy]
    · by_cases hq : q.1 = p.1
      · exact absurd (hq ▸ (List.mem_map.mpr ⟨p, h, rfl⟩)) hnd.1
      · simp [lookupPy, hq, ih hnd.2 h]

theorem length_insertPy {α β : Type} [DecidableEq α] (k : α) (v : β)
    (m : List (α × β)) :
    (insertPy k v m).length =
      if k ∈ m.map Prod.fst then m.length else m.length + 1 := by
  induction m with
  | nil => simp [insertPy]
  | cons q rest ih =>
    by_cases hq : q.1 = k
    · simp [insertPy, hq]
    · simp only [insertPy, if_neg hq, List.length_cons, ih, List.map_cons,
        List.mem_cons]
      by_cases hk : k ∈ rest.map Prod.fst
      · simp [hk, Ne.symm hq]
      · simp [hk, Ne.symm hq]

/-- Enrollment field values as they appear in the scraped JSON: an integer
or some other (non-`int`) value, the latter kept as its rendered text. -/
inductive EnrollVal : Type
  | int (n : Int)
  | other (s : String)
deriving DecidableEq

/-- One element of a section's `meetings` list. -/
structure Meeting : Type where
  day : Option String
  time : Option String
  room : Option String
deriving DecidableEq

/-- A section record (a Python dict); `none` models a missing key.
The dict key `section` is called `sectionLabel` here. -/
structure Section : Type where
  classNbr : Option Int
  enrolled : Option EnrollVal
  course : Option String
  sectionLabel : Option String
  enrlCap : Option EnrollVal
  remarks : Option String
  instructor : Option String
  meetings : List Meeting
deriving DecidableEq

/-- An element of `diff_courses`' `enrollment` list; the dict key
`section` is called `sec` here. -/
structure EnrollmentChange : Type where
  sec : Section
  old_enrolled : Int
  new_enrolled : Int
deriving DecidableEq

/-- Result of `diff_courses`. -/
structure DiffResult : Type where
  added : List Section
  removed : List Section
  enrollment : List EnrollmentChange
deriving DecidableEq

/-- One step of the dict comprehension in `diff_courses`: a section with a
`classNbr` key is indexed, one without is skipped. -/
def indexStep (m : List (Int × Section)) (s : Section) : List (Int × Section) :=
  match s.classNbr with
  | some k => insertPy k s m
  | none => m

/-- The dict comprehension in `diff_courses`:
`{s["classNbr"]: s for s in ss if "classNbr" in s}`. -/
def buildIndex (ss : List Section) : List (Int × Section) :=
  ss.foldl indexStep []

/-- The body of the `for` loop building `enrollment_changes`. -/
def enrollFn (old_by_number : List (Int × Section)) (p : Int × Section) :
    Option EnrollmentChange :=
  match lookupPy old_by_number p.1 with
  | none => none
  | some old_section =>
    match old_section.enrolled, p.2.enrolled with
    | some (.int a), some (.int b) =>
      if a ≠ b then some ⟨p.2, a, b⟩ else none
    | _, _ => none

/-- `diff_courses` from `bot/formatter.py`. -/
def diff_courses (old new : List Section) : DiffResult :=
  let old_by_number := buildIndex old
  let new_by_number := buildIndex new
  { added := (new_by_number.filter
      (fun p => (lookupPy old_by_number p.1).isNone)).map (fun p => p.2)
    removed := (old_by_number.filter
      (fun p => (lookupPy new_by_number p.1).isNone)).map (fun p => p.2)
    enrollment := new_by_number.filterMap (enrollFn old_by_number) }

/-- Invariant of the class-number index. -/
def IndexInv (m : List (Int × Section)) : Prop :=
  (m.map Prod.fst).Nodup ∧ ∀ p ∈ m, p.2.classNbr = some p.1

theorem indexInv_insertPy {m : List (Int × Section)} {s : Section} {k : Int}
    (h : IndexInv m) (hs : s.classNbr = some k) : IndexInv (insertPy k s m) := by
  refine ⟨nodup_keys_insertPy k s h.1, ?_⟩
  intro p hp
  rcases mem_insertPy hp with hp | hp
  · subst hp; exact hs
  · exact h.2 p hp

theorem buildIndex_foldl_inv (ss : List Section) :
    ∀ m : List (Int × Section), IndexInv m → IndexInv (ss.foldl indexStep m) := by
  induction ss with
  | nil => intro m h; simpa using h
  | cons s rest ih =>
    intro m h
    rw [List.foldl_cons]
    cases hs : s.classNbr with
    | none =>
      have hstep : indexStep m s = m := by simp [indexStep, hs]
      rw [hstep]
      exact ih m h
    | some k =>
      have hstep : indexStep m s = insertPy k s m := by simp [indexStep, hs]
      rw [hstep]
      exact ih _ (indexInv_insertPy h hs)

theorem buildIndex_inv (ss : List Section) : IndexInv (buildIndex ss) :=
  buildIndex_foldl_inv ss [] ⟨List.nodup_nil, by simp⟩

theorem enrollFn_some {idx : List (Int × Section)} {p : Int × Section}
    {e : EnrollmentChange} (h : enrollFn idx p = some e) :
    ∃ old_section, lookupPy idx p.1 = some old_section ∧
      old_section.enrolled = some (.int e.old_enrolled) ∧
      p.2.enrolled = some (.int e.new_enrolled) ∧
      e.old_enrolled ≠ e.new_enrolled ∧ e.sec = p.2 := by
  cases hl : lookupPy idx p.1 with
  | none =>
    simp only [enrollFn, hl] at h
    exact Option.noConfusion h
  | some os =>
    refine ⟨os, rfl, ?_⟩
    cases ho : os.enrolled with
    | none =>
      simp only [enrollFn, hl, ho] at h
      exact Option.noConfusion h
    | some ev =>
      cases ev with
      | other s =>
        simp only [enrollFn, hl, ho] at h
        exact Option.noConfusion h
      | int a =>
        cases hn : p.2.enrolled with
        | none =>
          simp only [enrollFn, hl, ho, hn] at h
          exact Option.noConfusion h
        | some ev' =>
          cases ev' with
          | other s =>
            simp only [enrollFn, hl, ho, hn] at h
            exact Option.noConfusion h
          | int b =>
            simp only [enrollFn, hl, ho, hn] at h
            by_cases hab : a ≠ b
            · rw [if_pos hab] at h
              injection h with h
              subst h
              exact ⟨rfl, rfl, hab, rfl⟩
            · rw [if_neg hab] at h
              exact Option.noConfusion h

theorem enrollFn_eq_some {idx : List (Int × Section)} {p : Int × Section}
    {os : Section} {a b : Int} (hl : lookupPy idx p.1 = some os)
    (ho : os.enrolled = some (.int a)) (hn : p.2.enrolled = some (.int b))
    (hab : a ≠ b) : enrollFn idx p = some ⟨p.2, a, b⟩ := by
  simp only [enrollFn, hl, ho, hn, if_pos hab]

/-- C7: `diff(X, X)` is empty in all three fields, for every snapshot `X`
(including ill-formed ones with duplicate or missing class numbers). -/
theorem diff_courses_self_eq_empty (X : List Section) :
    diff_courses X X = { added := [], removed := [], enrollment := [] } := by
  have inv := buildIndex_inv X
  have hfil : ((buildIndex X).filter
      (fun p => (lookupPy (buildIndex X) p.1).isNone)) = [] := by
    rw [List.filter_eq_nil_iff]
    intro p hp
    rcases Option.isSome_iff_exists.mp (lookupPy_isSome_of_mem hp) with ⟨v, hv⟩
    simp [hv]
  have henr : (buildIndex X).filterMap (enrollFn (buildIndex X)) = [] := by
    rw [List.filterMap_eq_nil_iff]
    intro p hp
    have hl := lookupPy_eq_some_of_mem inv.1 hp
    cases ho : p.2.enrolled with
    | none => simp [enrollFn, hl, ho]
    | some ev => cases ev with
      | int a => simp [enrollFn, hl, ho]
      | other s => simp [enrollFn, hl, ho]
  simp only [diff_courses, hfil, henr, List.map_nil]

/-- The class number of a well-formed section (default 0 when missing). -/
def classNbrD (s : Section) : Int := s.classNbr.getD 0

theorem buildIndex_foldl_eq (S : List Section) :
    ∀ acc : List (Int × Section),
      (∀ s ∈ S, s.classNbr.isSome) →
      (∀ s ∈ S, classNbrD s ∉ acc.map Prod.fst) →
      (S.map classNbrD).Nodup →
      S.foldl indexStep acc = acc ++ S.map (fun s => (classNbrD s, s)) := by
  induction S with
  | nil => intro acc _ _ _; simp
  | cons s rest ih =>
    intro acc hAll hAcc hNodup
    rcases Option.isSome_iff_exists.mp (hAll s (List.mem_cons_self _ _)) with ⟨k, hk⟩
    have hkd : classNbrD s = k := by simp [classNbrD, hk]
    have hstep : indexStep acc s = acc ++ [(k, s)] := by
      rw [indexStep, hk]
      exact insertPy_of_not_mem s (hkd ▸ hAcc s (List.mem_cons_self _ _))
    rw [List.foldl_cons, hstep]
    simp only [List.map_cons, List.nodup_cons] at hNodup
    have hrest : ∀ t ∈ rest, classNbrD t ∉ (acc ++ [(k, s)]).map Prod.fst := by
      intro t ht
      rw [List.map_append]
      simp only [List.mem_append, List.map_cons, List.map_nil,
        List.mem_singleton]
      rintro (hmem | hmem)
      · exact hAcc t (List.mem_cons_of_mem _ ht) hmem
      · exact hNodup.1 (hkd ▸ hmem ▸ List.mem_map.mpr ⟨t, ht, rfl⟩)
    rw [ih (acc ++ [(k, s)]) (fun t ht => hAll t (List.mem_cons_of_mem _ ht))
      hrest hNodup.2]
    simp [hkd]

theorem buildIndex_eq_of_wf (S : List Section)
    (hAll : ∀ s ∈ S, s.classNbr.isSome)
    (hNodup : (S.map classNbrD).Nodup) :
    buildIndex S = S.map (fun s => (classNbrD s, s)) := by
  have := buildIndex_foldl_eq S [] hAll (by simp) hNodup
  simpa [buildIndex] using this

/-- C8: against the empty snapshot, a well-formed snapshot `S` (every
section carries a class number, and class numbers are distinct, per the
data-model invariant of a Snapshot) is reported entirely as `added`
(resp. `removed`), with the other two diff fields empty. -/
theorem diff_courses_empty_boundary (S : List Section)
    (hAll : ∀ s ∈ S, s.classNbr.isSome)
    (hNodup : (S.map classNbrD).Nodup) :
    (diff_courses [] S).added = S ∧ (diff_courses [] S).removed = [] ∧
    (diff_courses [] S).enrollment = [] ∧
    (diff_courses S []).removed = S ∧ (diff_courses S []).added = [] ∧
    (diff_courses S []).enrollment = [] := by
  have hS := buildIndex_eq_of_wf S hAll hNodup
  have hnil : buildIndex [] = [] := rfl
  have hlook : ∀ k : Int, lookupPy (buildIndex []) k = none := fun k => rfl
  have hfilter : ∀ m : List (Int × Section),
      m.filter (fun p => (lookupPy (buildIndex []) p.1).isNone) = m := by
    intro m
    rw [List.filter_eq_self]
    intro p _
    simp [hlook]
  have hmap : (S.map (fun s => (classNbrD s, s))).map (fun p => p.2) = S := by
    rw [List.map_map]
    have hcomp : ((fun p : Int × Section => p.2) ∘ fun s => (classNbrD s, s)) =
        fun s => s := rfl
    rw [hcomp, List.map_id']
  refine ⟨?_, ?_, ?_, ?_, ?_, ?_⟩
  · simp only [diff_courses, hfilter, hS, hmap]
  · simp only [diff_courses, hnil, List.filter_nil, List.map_nil]
  · simp only [diff_courses, hS]
    rw [List.filterMap_eq_nil_iff]
    intro p _
    simp only [enrollFn, hlook p.1]
  · simp only [diff_courses, hfilter, hS, hmap]
  · simp only [diff_courses, hnil, List.filter_nil, List.map_nil]
  · simp only [diff_courses, hnil, List.filterMap_nil]

/-- Concrete sections used in the C8 witness. -/
def c8sec1 : Section :=
  { classNbr := some 1, enrolled := some (EnrollVal.int 3), course := some "A",
    sectionLabel := some "S1", enrlCap := none, remarks := none,
    instructor := none, meetings := [] }

/-- Second concrete section used in the C8 witness. -/
def c8sec2 : Section :=
  { classNbr := some 2, enrolled := none, course := none,
    sectionLabel := none, enrlCap := none, remarks := none,
    instructor := none, meetings := [] }

/-- Closed witness for the C8 theorem at a concrete two-section snapshot. -/
theorem diff_courses_empty_boundary_witness :
    (∀ s ∈ [c8sec1, c8sec2], s.classNbr.isSome) ∧
    (([c8sec1, c8sec2].map classNbrD).Nodup) ∧
    (diff_courses [] [c8sec1, c8sec2]).added = [c8sec1, c8sec2] ∧
    (diff_courses [c8sec1, c8sec2] []).removed = [c8sec1, c8sec2] :=
  ⟨by decide, by decide,
    (diff_courses_empty_boundary _ (by decide) (by decide)).1,
    (diff_courses_empty_boundary [c8sec1, c8sec2] (by decide)
      (by decide)).2.2.2.1⟩

/-- C10: sections lacking a `classNbr` key are invisible to the diff:
filtering them out of either input changes nothing, and no output field
ever contains a record without a class number. -/
theorem diff_courses_ignores_missing_classNbr (old new : List Section) :
    diff_courses old new =
      diff_courses (old.filter (fun s => s.classNbr.isSome))
        (new.filter (fun s => s.classNbr.isSome)) ∧
    (∀ s ∈ (diff_courses old new).added, s.classNbr.isSome) ∧
    (∀ s ∈ (diff_courses old new).removed, s.classNbr.isSome) ∧
    (∀ e ∈ (diff_courses old new).enrollment, e.sec.classNbr.isSome) := by
  have hfoldl : ∀ (ss : List Section) (acc : List (Int × Section)),
      (ss.filter (fun s => s.classNbr.isSome)).foldl indexStep acc =
        ss.foldl indexStep acc := by
    intro ss
    induction ss with
    | nil => intro acc; rfl
    | cons s rest ih =>
      intro acc
      cases hs : s.classNbr with
      | none =>
        have hp : s.classNbr.isSome = false := by simp [hs]
        rw [List.filter_cons, if_neg (by simp [hp]), List.foldl_cons]
        have : indexStep acc s = acc := by simp [indexStep, hs]
        rw [this, ih]
      | some k =>
        have hp : s.classNbr.isSome = true := by simp [hs]
        rw [List.filter_cons, if_pos (by simp [hp]), List.foldl_cons,
          List.foldl_cons, ih]
  have hbi : ∀ ss : List Section,
      buildIndex (ss.filter (fun s => s.classNbr.isSome)) = buildIndex ss :=
    fun ss => hfoldl ss []
  refine ⟨?_, ?_, ?_, ?_⟩
  · simp only [diff_courses, hbi]
  · intro s hs
    simp only [diff_courses, List.mem_map] at hs
    rcases hs with ⟨p, hp, hps⟩
    have := (buildIndex_inv new).2 p (List.mem_filter.mp hp).1
    rw [← hps, this]
    rfl
  · intro s hs
    simp only [diff_courses, List.mem_map] at hs
    rcases hs with ⟨p, hp, hps⟩
    have := (buildIndex_inv old).2 p (List.mem_filter.mp hp).1
    rw [← hps, this]
    rfl
  · intro e he
    simp only [diff_courses, List.mem_filterMap] at he
    rcases he with ⟨p, hp, hpe⟩
    rcases enrollFn_some hpe with ⟨os, _, _, _, _, hsec⟩
    have := (buildIndex_inv new).2 p hp
    rw [hsec, this]
    rfl

/-- Python's string comparison `<` on code points, on the char lists. -/
def lexLtB : List Char → List Char → Bool
  | _, [] => false
  | [], _ :: _ => true
  | a :: as, b :: bs => if a < b then true else if b < a then false else lexLtB as bs

theorem lexLtB_asymm : ∀ as bs, lexLtB as bs = true → lexLtB bs as = false := by
  intro as
  induction as with
  | nil =>
    intro bs h
    cases bs with
    | nil => simp [lexLtB] at h
    | cons b bs => rfl
  | cons a as ih =>
    intro bs h
    cases bs with
    | nil => simp [lexLtB] at h
    | cons b bs =>
      rcases lt_trichotomy a b with hab | heq | hba
      · simp only [lexLtB, if_neg (lt_asymm hab), if_pos hab]
      · subst heq
        have hn : ¬ a < a := lt_irrefl a
        simp only [lexLtB, if_neg hn] at h ⊢
        exact ih bs h
      · simp only [lexLtB, if_neg (lt_asymm hba), if_pos hba] at h
        exact Bool.noConfusion h

theorem lexLtB_irrefl (as : List Char) : lexLtB as as = false := by
  cases hv : lexLtB as as with
  | false => rfl
  | true =>
    have := lexLtB_asymm _ _ hv
    rw [this] at hv
    exact Bool.noConfusion hv

theorem lexLtB_conn : ∀ as bs, lexLtB as bs = false → lexLtB bs as = false →
    as = bs := by
  intro as
  induction as with
  | nil =>
    intro bs h _
    cases bs with
    | nil => rfl
    | cons b bs => simp [lexLtB] at h
  | cons a as ih =>
    intro bs h h'
    cases bs with
    | nil => simp [lexLtB] at h'
    | cons b bs =>
      rcases lt_trichotomy a b with hab | heq | hba
      · simp only [lexLtB, if_pos hab] at h
        exact Bool.noConfusion h
      · subst heq
        have hn : ¬ a < a := lt_irrefl a
        simp only [lexLtB, if_neg hn] at h h'
        rw [ih bs h h']
      · simp only [lexLtB, if_pos hba] at h'
        exact Bool.noConfusion h'

theorem lexLtB_trans : ∀ as bs cs, lexLtB as bs = true → lexLtB bs cs = true →
    lexLtB as cs = true := by
  intro as
  induction as with
  | nil =>
    intro bs cs h h'
    cases cs with
    | nil =>
      cases bs with
      | nil => simp [lexLtB] at h
      | cons b bs => simp [lexLtB] at h'
    | cons c cs => rfl
  | cons a as ih =>
    intro bs cs h h'
    cases bs with
    | nil => simp [lexLtB] at h
    | cons b bs =>
      cases cs with
      | nil => simp [lexLtB] at h'
      | cons c cs =>
        rcases lt_trichotomy a b with hab | heq | hba
        · rcases lt_trichotomy b c with hbc | heq2 | hcb
          · simp only [lexLtB, if_pos (lt_trans hab hbc)]
          · subst heq2
            simp only [lexLtB, if_pos hab]
          · simp only [lexLtB, if_neg (lt_asymm hcb), if_pos hcb] at h'
            exact Bool.noConfusion h'
        · subst heq
          have hn : ¬ a < a := lt_irrefl a
          simp only [lexLtB, if_neg hn] at h
          rcases lt_trichotomy a c with hac | heq2 | hca
          · simp only [lexLtB, if_pos hac]
          · subst heq2
            simp only [lexLtB, if_neg hn] at h' ⊢
            exact ih bs cs h h'
          · simp only [lexLtB, if_neg (lt_asymm hca), if_pos hca] at h'
            exact Bool.noConfusion h'
        · simp only [lexLtB, if_neg (lt_asymm hba), if_pos hba] at h
          exact Bool.noConfusion h

/-- Python string `<` (code-point lexicographic). -/
def pyStrLt (a b : String) : Bool := lexLtB a.data b.data

theorem pyStrLt_asymm {a b : String} (h : pyStrLt a b = true) :
    pyStrLt b a = false := lexLtB_asymm _ _ h

theorem pyStrLt_irrefl (a : String) : pyStrLt a a = false := lexLtB_irrefl _

theorem pyStrLt_conn {a b : String} (h : pyStrLt a b = false)
    (h' : pyStrLt b a = false) : a = b := by
  have hd := lexLtB_conn _ _ h h'
  cases a with | _ d1 => cases b with | _ d2 => exact congrArg String.mk hd

theorem pyStrLt_trans {a b c : String} (h : pyStrLt a b = true)
    (h' : pyStrLt b c = true) : pyStrLt a c = true := lexLtB_trans _ _ _ h h'

/-- Python tuple `<` on a pair of strings, as compared by `sorted(...)`. -/
def tupleLtB (x y : String × String) : Bool :=
  if pyStrLt x.1 y.1 then true
  else if pyStrLt y.1 x.1 then false
  else pyStrLt x.2 y.2

theorem tupleLtB_asymm {x y : String × String} (h : tupleLtB x y = true) :
    tupleLtB y x = false := by
  cases h1 : pyStrLt x.1 y.1 with
  | true => simp [tupleLtB, pyStrLt_asymm h1, h1]
  | false =>
    cases h2 : pyStrLt y.1 x.1 with
    | true =>
      simp only [tupleLtB, h1, h2, Bool.false_eq_true, if_false, if_pos rfl] at h
      exact Bool.noConfusion h
    | false =>
      simp only [tupleLtB, h1, h2, Bool.false_eq_true, if_false] at h
      simp only [tupleLtB, h1, h2, Bool.false_eq_true, if_false,
        pyStrLt_asymm h]

theorem tupleLtB_conn {x y : String × String} (h : tupleLtB x y = false)
    (h' : tupleLtB y x = false) : x = y := by
  cases h1 : pyStrLt x.1 y.1 with
  | true =>
    simp only [tupleLtB, h1, if_pos rfl] at h
    exact Bool.noConfusion h
  | false =>
    cases h2 : pyStrLt y.1 x.1 with
    | true =>
      simp only [tupleLtB, h2, if_pos rfl] at h'
      exact Bool.noConfusion h'
    | false =>
      simp only [tupleLtB, h1, h2, Bool.false_eq_true, if_false] at h h'
      exact Prod.ext (pyStrLt_conn h1 h2) (pyStrLt_conn h h')

theorem tupleLtB_trans {x y z : String × String} (h : tupleLtB x y = true)
    (h' : tupleLtB y z = true) : tupleLtB x z = true := by
  cases h1 : pyStrLt x.1 y.1 with
  | true =>
    cases h2 : pyStrLt y.1 z.1 with
    | true => simp [tupleLtB, pyStrLt_trans h1 h2]
    | false =>
      cases h3 : pyStrLt z.1 y.1 with
      | true =>
        simp only [tupleLtB, h2, h3, Bool.false_eq_true, if_false, if_pos rfl] at h'
        exact Bool.noConfusion h'
      | false =>
        have e : y.1 = z.1 := pyStrLt_conn h2 h3
        rw [e] at h1
        simp [tupleLtB, h1]
  | false =>
    cases h2 : pyStrLt y.1 x.1 with
    | true =>
      simp only [tupleLtB, h1, h2, Bool.false_eq_true, if_false, if_pos rfl] at h
      exact Bool.noConfusion h
    | false =>
      have e1 : x.1 = y.1 := pyStrLt_conn h1 h2
      simp only [tupleLtB, h1, h2, Bool.false_eq_true, if_false] at h
      cases h3 : pyStrLt y.1 z.1 with
      | true =>
        rw [← e1] at h3
        simp [tupleLtB, h3]
      | false =>
        cases h4 : pyStrLt z.1 y.1 with
        | true =>
          simp only [tupleLtB, h3, h4, Bool.false_eq_true, if_false, if_pos rfl] at h'
          exact Bool.noConfusion h'
        | false =>
          have e2 : y.1 = z.1 := pyStrLt_conn h3 h4
          simp only [tupleLtB, h3, h4, Bool.false_eq_true, if_false] at h'
          have e3 : x.1 = z.1 := e1.trans e2
          have g1 : pyStrLt x.1 z.1 = false := by rw [e3]; exact pyStrLt_irrefl _
          have g2 : pyStrLt z.1 x.1 = false := by rw [e3]; exact pyStrLt_irrefl _
          simp only [tupleLtB, g1, g2, Bool.false_eq_true, if_false]
          exact pyStrLt_trans h h'

/-- The sort key used in `compose_update_lines`:
`(c["section"].get("course", ""), c["section"].get("section", ""))`. -/
def changeKey (e : EnrollmentChange) : String × String :=
  (e.sec.course.getD "", e.sec.sectionLabel.getD "")

/-- Non-strict "comes no later than" relation induced by Python's stable
sort on `changeKey`: `e` may precede `f` iff `f`'s key is not strictly
smaller. -/
def changeLE (e f : EnrollmentChange) : Prop :=
  tupleLtB (changeKey f) (changeKey e) = false

instance : DecidableRel changeLE := fun _ _ =>
  inferInstanceAs (Decidable (_ = false))

instance : IsTotal EnrollmentChange changeLE := by
  refine ⟨fun e f => ?_⟩
  cases hv : tupleLtB (changeKey f) (changeKey e) with
  | false => exact Or.inl hv
  | true => exact Or.inr (tupleLtB_asymm hv)

instance : IsTrans EnrollmentChange changeLE := by
  refine ⟨fun e f g hef hfg => ?_⟩
  unfold changeLE at hef hfg ⊢
  cases hv : tupleLtB (changeKey g) (changeKey e) with
  | false => rfl
  | true =>
    cases hw : tupleLtB (changeKey f) (changeKey g) with
    | true =>
      have := tupleLtB_trans hw hv
      rw [this] at hef
      exact Bool.noConfusion hef
    | false =>
      have e1 : changeKey g = changeKey f := tupleLtB_conn hfg hw
      rw [e1] at hv
      rw [hv] at hef
      exact Bool.noConfusion hef

/-- The `sorted(changes["enrollment"], key=...)` call inside
`compose_update_lines`, modelled by a stable sort on the same key. -/
def sortChanges (cs : List EnrollmentChange) : List EnrollmentChange :=
  List.insertionSort changeLE cs

theorem enroll_count_le_one (oldIdx : List (Int × Section)) :
    ∀ m : List (Int × Section), (m.map Prod.fst).Nodup →
      (∀ p ∈ m, p.2.classNbr = some p.1) → ∀ k : Int,
      ((m.filterMap (enrollFn oldIdx)).filter
        (fun e => e.sec.classNbr == some k)).length ≤ 1 := by
  intro m
  induction m with
  | nil => intro _ _ k; simp
  | cons p rest ih =>
    intro hnd hinv k
    simp only [List.map_cons, List.nodup_cons] at hnd
    have hrest : ∀ q ∈ rest, q.2.classNbr = some q.1 :=
      fun q hq => hinv q (List.mem_cons_of_mem _ hq)
    rw [List.filterMap_cons]
    cases hfe : enrollFn oldIdx p with
    | none => exact ih hnd.2 hrest k
    | some e =>
      rcases enrollFn_some hfe with ⟨os, _, _, _, _, hsec⟩
      have hpk : e.sec.classNbr = some p.1 := by
        rw [hsec]; exact hinv p (List.mem_cons_self _ _)
      rw [List.filter_cons]
      by_cases hk : p.1 = k
      · subst hk
        rw [if_pos (by simp [hpk])]
        have hzero : (rest.filterMap (enrollFn oldIdx)).filter
            (fun e => e.sec.classNbr == some p.1) = [] := by
          rw [List.filter_eq_nil_iff]
          intro e' he'
          rcases List.mem_filterMap.mp he' with ⟨q, hq, hfq⟩
          rcases enrollFn_some hfq with ⟨_, _, _, _, _, hsec'⟩
          have : e'.sec.classNbr = some q.1 := by
            rw [hsec']; exact hrest q hq
          simp only [this, beq_iff_eq, Option.some.injEq]
          intro hcon
          exact hnd.1 (hcon ▸ List.mem_map.mpr ⟨q, hq, rfl⟩)
        rw [hzero]
        simp
      · rw [if_neg (by simp [hpk]; exact hk)]
        exact ih hnd.2 hrest k

theorem enroll_mem_iff (old new : List Section) (k a b : Int) :
    (∃ e ∈ (diff_courses old new).enrollment,
      e.sec.classNbr = some k ∧ e.old_enrolled = a ∧ e.new_enrolled = b) ↔
    (∃ so sn, lookupPy (buildIndex old) k = some so ∧
      lookupPy (buildIndex new) k = some sn ∧
      so.enrolled = some (.int a) ∧ sn.enrolled = some (.int b) ∧ a ≠ b) := by
  have invOld := buildIndex_inv old
  have invNew := buildIndex_inv new
  constructor
  · rintro ⟨e, he, hk, ha, hb⟩
    simp only [diff_courses, List.mem_filterMap] at he
    rcases he with ⟨p, hp, hfe⟩
    rcases enrollFn_some hfe with ⟨os, hl, ho, hn, _, hsec⟩
    have hp1 : p.1 = k := by
      have hcn := invNew.2 p hp
      rw [hsec, hcn] at hk
      exact Option.some.inj hk
    refine ⟨os, p.2, ?_, ?_, ?_, ?_, ?_⟩
    · rw [← hp1]; exact hl
    · rw [← hp1]; exact lookupPy_eq_some_of_mem invNew.1 hp
    · rw [← ha]; exact ho
    · rw [← hb]; exact hn
    · rw [← ha, ← hb]
      rcases enrollFn_some hfe with ⟨_, _, _, _, hne, _⟩
      exact hne
  · rintro ⟨so, sn, hlo, hln, ho, hn, hab⟩
    have hmem : (k, sn) ∈ buildIndex new := mem_of_lookupPy_eq_some hln
    have hfe : enrollFn (buildIndex old) (k, sn) = some ⟨sn, a, b⟩ :=
      enrollFn_eq_some (p := (k, sn)) hlo ho hn hab
    refine ⟨⟨sn, a, b⟩, ?_, ?_, rfl, rfl⟩
    · simp only [diff_courses, List.mem_filterMap]
      exact ⟨(k, sn), hmem, hfe⟩
    · exact invNew.2 (k, sn) hmem

/-- C3 (amended): each class number present in both snapshots with two
integer `enrolled` values that differ contributes exactly one entry to the
diff's `enrollment` list (non-integer or missing enrollment contributes
none); the diff list itself is in the current snapshot's index order, and
it is the rendering step (`compose_update_lines`) that sorts a
key-ascending permutation of it. -/
theorem diff_enrollment_characterization (old new : List Section) :
    (∀ k : Int, (((diff_courses old new).enrollment).filter
      (fun e => e.sec.classNbr == some k)).length ≤ 1) ∧
    (∀ k a b : Int,
      (∃ e ∈ (diff_courses old new).enrollment,
        e.sec.classNbr = some k ∧ e.old_enrolled = a ∧ e.new_enrolled = b) ↔
      (∃ so sn, lookupPy (buildIndex old) k = some so ∧
        lookupPy (buildIndex new) k = some sn ∧
        so.enrolled = some (.int a) ∧ sn.enrolled = some (.int b) ∧ a ≠ b)) ∧
    List.Sorted changeLE (sortChanges ((diff_courses old new).enrollment)) ∧
    (sortChanges ((diff_courses old new).enrollment)).Perm
      ((diff_courses old new).enrollment) := by
  refine ⟨?_, ?_, ?_, ?_⟩
  · intro k
    have invNew := buildIndex_inv new
    simp only [diff_courses]
    exact enroll_count_le_one (buildIndex old) (buildIndex new)
      invNew.1 invNew.2 k
  · exact fun k a b => enroll_mem_iff old new k a b
  · exact List.sorted_insertionSort changeLE _
  · exact List.perm_insertionSort changeLE _

/-- Sections used in the C3 counterexample: two tracked classes whose
courses are in descending alphabetical order in the snapshot. -/
def c3oldSections : List Section :=
  [{ classNbr := some 1, enrolled := some (EnrollVal.int 10),
     course := some "B", sectionLabel := some "B1", enrlCap := none,
     remarks := none, instructor := none, meetings := [] },
   { classNbr := some 2, enrolled := some (EnrollVal.int 10),
     course := some "A", sectionLabel := some "A1", enrlCap := none,
     remarks := none, instructor := none, meetings := [] }]

/-- Current snapshot for the C3 counterexample: both enrollments changed. -/
def c3newSections : List Section :=
  [{ classNbr := some 1, enrolled := some (EnrollVal.int 11),
     course := some "B", sectionLabel := some "B1", enrlCap := none,
     remarks := none, instructor := none, meetings := [] },
   { classNbr := some 2, enrolled := some (EnrollVal.int 12),
     course := some "A", sectionLabel := some "A1", enrlCap := none,
     remarks := none, instructor := none, meetings := [] }]

/-- C3 counterexample: the `enrollment` field of the diff result itself is
NOT sorted by `(course, section_label)`: here it lists course "B" before
course "A" (the current snapshot's order); sorting only happens later in
`compose_update_lines`. -/
theorem diff_enrollment_not_sorted :
    ¬ List.Sorted changeLE ((diff_courses c3oldSections c3newSections).enrollment) ∧
    ((diff_courses c3oldSections c3newSections).enrollment).map changeKey =
      [("B", "B1"), ("A", "A1")] := by
  constructor
  · decide
  · decide

/-- Characters stripped by Python's `str.strip()`. -/
def isPyWS (c : Char) : Bool :=
  c == ' ' || c == '\t' || c == '\n' || c == '\r' || c == '\x0b' || c == '\x0c'

/-- Python `str.strip()`. -/
def pyStrip (s : String) : String :=
  String.mk (((s.data.dropWhile isPyWS).reverse.dropWhile isPyWS).reverse)

theorem length_dropWhile_le_py {α : Type} (p : α → Bool) (l : List α) :
    (l.dropWhile p).length ≤ l.length := by
  induction l with
  | nil => simp
  | cons a l ih =>
    rw [List.dropWhile_cons]
    by_cases hp : p a = true
    · rw [if_pos hp]
      exact Nat.le_succ_of_le ih
    · rw [if_neg hp]

theorem pyStrip_length_le (s : String) : (pyStrip s).length ≤ s.length := by
  show (((s.data.dropWhile isPyWS).reverse.dropWhile isPyWS).reverse).length ≤
    s.data.length
  rw [List.length_reverse]
  calc ((s.data.dropWhile isPyWS).reverse.dropWhile isPyWS).length
      ≤ (s.data.dropWhile isPyWS).reverse.length := length_dropWhile_le_py _ _
    _ = (s.data.dropWhile isPyWS).length := List.length_reverse _
    _ ≤ s.data.length := length_dropWhile_le_py _ _

/-- The per-line separator of `send_long_message`:
`("\n\n" if current_chunk else "") + line`. -/
def sepLine (current line : String) : String :=
  (if current = "" then "" else "\n\n") ++ line

/-- The accumulation loop of `send_long_message`, taking the current
unfinished chunk and the remaining lines. -/
def chunkAux (limit : Nat) (current : String) : List String → List String
  | [] => if current = "" then [] else [pyStrip current]
  | line :: rest =>
    if current.length + (sepLine current line).length > limit then
      pyStrip current :: chunkAux limit line rest
    else
      chunkAux limit (current ++ sepLine current line) rest

/-- The chunking step of `send_long_message`. -/
def chunkLines (limit : Nat) (text_lines : List String) : List String :=
  chunkAux limit "" text_lines

/-- `telegram.constants.MessageLimit.MAX_TEXT_LENGTH`. -/
def MSG_LIMIT : Nat := 4096

/-- The chunk header `f"*{title}* (part {idx}/{len(chunks)})\n\n"`. -/
def partHeader (title : String) (i n : Nat) : String :=
  "*" ++ title ++ "* (part " ++ toString i ++ "/" ++ toString n ++ ")\n\n"

/-- The `full_message` values sent by `send_long_message`, in order: the
part header is prepended only when there are several chunks and a title. -/
def messagesOf (title : String) (chunks : List String) : List String :=
  chunks.mapIdx (fun i c =>
    (if 1 < chunks.length ∧ title ≠ "" then
      partHeader title (i + 1) chunks.length else "") ++ c)

/-- Joining a group of lines the way the accumulation loop does, starting
from an existing current chunk. -/
def pyJoinFrom (c : String) (g : List String) : String :=
  g.foldl (fun cur l => cur ++ sepLine cur l) c

/-- Joining a group of lines from an empty current chunk. -/
def pyJoin (g : List String) : String := pyJoinFrom "" g

theorem pyJoinFrom_nil (c : String) : pyJoinFrom c [] = c := rfl

theorem pyJoinFrom_cons (c l : String) (g : List String) :
    pyJoinFrom c (l :: g) = pyJoinFrom (c ++ sepLine c l) g := rfl

theorem pyJoin_cons (l : String) (g : List String) :
    pyJoin (l :: g) = pyJoinFrom l g := by
  show pyJoinFrom ("" ++ sepLine "" l) g = pyJoinFrom l g
  have hl : ("" ++ sepLine "" l) = l := by simp [sepLine]
  rw [hl]

theorem chunkAux_spec (limit : Nat) :
    ∀ (lines : List String) (c : String),
      (∀ l ∈ lines, l.length ≤ limit) → c.length ≤ limit →
      ∃ (h : List String) (groups : List (List String)),
        h ++ groups.flatten = lines ∧
        (∀ g ∈ groups, g ≠ []) ∧
        (∀ g ∈ groups, (pyJoin g).length ≤ limit) ∧
        (pyJoinFrom c h).length ≤ limit ∧
        chunkAux limit c lines =
          (if pyJoinFrom c h = "" then [] else [pyStrip (pyJoinFrom c h)]) ++
            (groups.filter (fun g => pyJoin g != "")).map
              (fun g => pyStrip (pyJoin g)) := by
  intro lines
  induction lines with
  | nil =>
    intro c _ hc
    refine ⟨[], [], by simp, by simp, by simp, by simpa [pyJoinFrom_nil], ?_⟩
    simp [chunkAux, pyJoinFrom_nil]
  | cons line rest ih =>
    intro c hlen hc
    have hline : line.length ≤ limit := hlen line (List.mem_cons_self _ _)
    have hrest : ∀ l ∈ rest, l.length ≤ limit :=
      fun l hl => hlen l (List.mem_cons_of_mem _ hl)
    by_cases hover : c.length + (sepLine c line).length > limit
    · have hcne : c ≠ "" := by
        intro hceq
        subst hceq
        have hsep : sepLine "" line = line := by simp [sepLine]
        rw [hsep] at hover
        have hz : ("" : String).length = 0 := rfl
        rw [hz] at hover
        omega
      rcases ih line hrest hline with ⟨h', groups', hflat, hne, hlim, hfirst, heq⟩
      refine ⟨[], (line :: h') :: groups', ?_, ?_, ?_, ?_, ?_⟩
      · simp [hflat]
      · intro g hg
        rcases List.mem_cons.mp hg with hg | hg
        · subst hg; simp
        · exact hne g hg
      · intro g hg
        rcases List.mem_cons.mp hg with hg | hg
        · subst hg; rw [pyJoin_cons]; exact hfirst
        · exact hlim g hg
      · simpa [pyJoinFrom_nil] using hc
      · rw [show chunkAux limit c (line :: rest) =
          pyStrip c :: chunkAux limit line rest from by
            rw [chunkAux, if_pos hover]]
        rw [heq, pyJoinFrom_nil, if_neg hcne]
        rw [List.filter_cons]
        by_cases hjoin : pyJoinFrom line h' = ""
        · have hcond : (pyJoin (line :: h') != "") = false := by
            rw [pyJoin_cons, hjoin]
            rfl
          rw [hcond, if_neg Bool.false_ne_true, hjoin, if_pos rfl]
          simp
        · have hcond : (pyJoin (line :: h') != "") = true := by
            rw [pyJoin_cons]
            exact bne_iff_ne.mpr hjoin
          rw [hcond, if_pos rfl, if_neg hjoin]
          simp [pyJoin_cons]
    · have hstep : (c ++ sepLine c line).length ≤ limit := by
        rw [String.length_append]
        omega
      rcases ih (c ++ sepLine c line) hrest hstep with
        ⟨h', groups', hflat, hne, hlim, hfirst, heq⟩
      refine ⟨line :: h', groups', by simp [hflat], hne, hlim, ?_, ?_⟩
      · rw [pyJoinFrom_cons]; exact hfirst
      · rw [show chunkAux limit c (line :: rest) =
          chunkAux limit (c ++ sepLine c line) rest from by
            rw [chunkAux, if_neg hover]]
        rw [heq, pyJoinFrom_cons]

theorem mapIdx_const_id : ∀ l : List String, l.mapIdx (fun _ c => c) = l := by
  intro l
  induction l with
  | nil => simp
  | cons a l ih => simp [List.mapIdx_cons, ih]

/-- C4: chunking packs whole blocks, blank-line separated, into chunks of
at most `limit` characters; chunk boundaries fall only between blocks
(each chunk is a stripped join of a consecutive non-empty group of
blocks, a group of only-empty blocks producing no message); with several
chunks and a (non-empty) title every sent message carries the
`part i/N` header, with a single chunk none does. -/
theorem send_long_message_chunking (text_lines : List String) (limit : Nat)
    (title : String) (hlen : ∀ l ∈ text_lines, l.length ≤ limit)
    (htitle : title ≠ "") :
    ∃ groups : List (List String),
      groups.flatten = text_lines ∧
      (∀ g ∈ groups, g ≠ []) ∧
      (∀ g ∈ groups, (pyJoin g).length ≤ limit) ∧
      chunkLines limit text_lines =
        (groups.filter (fun g => pyJoin g != "")).map
          (fun g => pyStrip (pyJoin g)) ∧
      (∀ ch ∈ chunkLines limit text_lines, ch.length ≤ limit) ∧
      (1 < (chunkLines limit text_lines).length →
        messagesOf title (chunkLines limit text_lines) =
          (chunkLines limit text_lines).mapIdx (fun i ch =>
            partHeader title (i + 1) (chunkLines limit text_lines).length ++ ch)) ∧
      ((chunkLines limit text_lines).length ≤ 1 →
        messagesOf title (chunkLines limit text_lines) =
          chunkLines limit text_lines) := by
  rcases chunkAux_spec limit text_lines "" hlen (by simp [String.length]) with
    ⟨h, groups, hflat, hne, hlim, hfirst, heq⟩
  have hchunks : chunkLines limit text_lines =
      ((if h = [] then groups else h :: groups).filter
        (fun g => pyJoin g != "")).map (fun g => pyStrip (pyJoin g)) := by
    by_cases hh : h = []
    · subst hh
      rw [if_pos rfl]
      unfold chunkLines
      rw [heq, pyJoinFrom_nil, if_pos rfl, List.nil_append]
    · rw [if_neg hh]
      unfold chunkLines
      rw [heq, List.filter_cons]
      by_cases hjoin : pyJoin h = ""
      · have hj0 : pyJoinFrom "" h = "" := hjoin
        have hcond : (pyJoin h != "") = false := by rw [hjoin]; rfl
        rw [hcond, if_neg Bool.false_ne_true, hj0, if_pos rfl, List.nil_append]
      · have hj0 : pyJoinFrom "" h ≠ "" := hjoin
        have hcond : (pyJoin h != "") = true := bne_iff_ne.mpr hjoin
        rw [hcond, if_pos rfl, if_neg hj0, List.map_cons, List.singleton_append]
        rfl
  set allGroups := if h = [] then groups else h :: groups with hag
  have hflat' : allGroups.flatten = text_lines := by
    by_cases hh : h = []
    · rw [hag, if_pos hh]
      rw [← hflat, hh, List.nil_append]
    · rw [hag, if_neg hh, List.flatten_cons, hflat]
  have hne' : ∀ g ∈ allGroups, g ≠ [] := by
    intro g hg
    by_cases hh : h = []
    · rw [hag, if_pos hh] at hg
      exact hne g hg
    · rw [hag, if_neg hh] at hg
      rcases List.mem_cons.mp hg with hg | hg
      · subst hg; exact hh
      · exact hne g hg
  have hlim' : ∀ g ∈ allGroups, (pyJoin g).length ≤ limit := by
    intro g hg
    by_cases hh : h = []
    · rw [hag, if_pos hh] at hg
      exact hlim g hg
    · rw [hag, if_neg hh] at hg
      rcases List.mem_cons.mp hg with hg | hg
      · subst hg
        have hj : pyJoinFrom "" g = pyJoin g := rfl
        rw [← hj]
        exact hfirst
      · exact hlim g hg
  refine ⟨allGroups, hflat', hne', hlim', hchunks, ?_, ?_, ?_⟩
  · intro ch hch
    rw [hchunks] at hch
    rcases List.mem_map.mp hch with ⟨g, hg, hgch⟩
    have hgin := (List.mem_filter.mp hg).1
    calc ch.length = (pyStrip (pyJoin g)).length := by rw [← hgch]
      _ ≤ (pyJoin g).length := pyStrip_length_le _
      _ ≤ limit := hlim' g hgin
  · intro hmulti
    unfold messagesOf
    have hcond : (1 < (chunkLines limit text_lines).length ∧ title ≠ "") :=
      ⟨hmulti, htitle⟩
    simp only [if_pos hcond]
  · intro hsingle
    unfold messagesOf
    have hcond : ¬ (1 < (chunkLines limit text_lines).length ∧ title ≠ "") := by
      intro hcon
      omega
    simp only [if_neg hcond]
    have hnil : ∀ s : String, "" ++ s = s := fun s => rfl
    calc (chunkLines limit text_lines).mapIdx (fun i c => "" ++ c)
        = (chunkLines limit text_lines).mapIdx (fun i c => c) := by
          simp only [hnil]
      _ = chunkLines limit text_lines := mapIdx_const_id _

/-- Closed witness for the C4 theorem: three blocks, limit 7, two chunks. -/
theorem send_long_message_chunking_witness :
    (∀ l ∈ ["aaaa", "bb", "cc"], l.length ≤ 7) ∧ ("T" : String) ≠ "" ∧
    chunkLines 7 ["aaaa", "bb", "cc"] = ["aaaa", "bb\n\ncc"] ∧
    (∃ groups : List (List String),
      groups.flatten = ["aaaa", "bb", "cc"] ∧
      (∀ g ∈ groups, g ≠ []) ∧
      (∀ g ∈ groups, (pyJoin g).length ≤ 7) ∧
      chunkLines 7 ["aaaa", "bb", "cc"] =
        (groups.filter (fun g => pyJoin g != "")).map
          (fun g => pyStrip (pyJoin g)) ∧
      (∀ ch ∈ chunkLines 7 ["aaaa", "bb", "cc"], ch.length ≤ 7) ∧
      (1 < (chunkLines 7 ["aaaa", "bb", "cc"]).length →
        messagesOf "T" (chunkLines 7 ["aaaa", "bb", "cc"]) =
          (chunkLines 7 ["aaaa", "bb", "cc"]).mapIdx (fun i ch =>
            partHeader "T" (i + 1) (chunkLines 7 ["aaaa", "bb", "cc"]).length ++ ch)) ∧
      ((chunkLines 7 ["aaaa", "bb", "cc"]).length ≤ 1 →
        messagesOf "T" (chunkLines 7 ["aaaa", "bb", "cc"]) =
          chunkLines 7 ["aaaa", "bb", "cc"])) :=
  ⟨by decide, by decide, by decide,
    send_long_message_chunking ["aaaa", "bb", "cc"] 7 "T" (by decide) (by decide)⟩

/-- `models/cache.py` `CacheEntry`; timestamps are seconds as integers. -/
structure CacheEntry : Type where
  course : String
  student_id : String
  data : List Section
  timestamp : Int
deriving DecidableEq

/-- `CacheEntry.is_valid`: age strictly under the TTL. -/
def CacheEntry.is_valid (e : CacheEntry) (max_age_seconds : Int) (now : Int) : Bool :=
  now - e.timestamp < max_age_seconds

/-- `services/cache.py` `CacheService` state. -/
structure CacheService : Type where
  cache : List (String × CacheEntry)
  max_age_seconds : Int
  hits : Nat
  misses : Nat
deriving DecidableEq

/-- `CacheService.get_cache_key`. -/
def get_cache_key (course student_id : String) : String :=
  course ++ ":" ++ student_id

/-- `CacheService.get`: returns the data (or `None`) and the updated
counter state; the store itself is never modified. -/
def CacheService.get (st : CacheService) (course student_id : String)
    (now : Int) : Option (List Section) × CacheService :=
  match lookupPy st.cache (get_cache_key course student_id) with
  | some entry =>
    if entry.is_valid st.max_age_seconds now then
      (some entry.data, { st with hits := st.hits + 1 })
    else (none, { st with misses := st.misses + 1 })
  | none => (none, { st with misses := st.misses + 1 })

/-- `CacheService.set`. -/
def CacheService.set (st : CacheService) (course student_id : String)
    (data : List Section) (now : Int) : CacheService :=
  let entry : CacheEntry := ⟨course, student_id, data, now⟩
  { st with cache := insertPy (get_cache_key course student_id) entry st.cache }

/-- A fresh cache as built by `CacheService.__init__`. -/
def CacheService.init (max_age_seconds : Int) : CacheService :=
  ⟨[], max_age_seconds, 0, 0⟩

/-- One external call to the cache service. -/
inductive CacheOp : Type
  | get (course student_id : String) (now : Int)
  | set (course student_id : String) (data : List Section) (now : Int)
deriving DecidableEq

/-- Replay a sequence of cache calls. -/
def runCacheOps (st : CacheService) : List CacheOp → CacheService
  | [] => st
  | CacheOp.get c s n :: rest => runCacheOps (CacheService.get st c s n).2 rest
  | CacheOp.set c s d n :: rest => runCacheOps (CacheService.set st c s d n) rest

/-- The cache key a `put` call writes, if the op is a `put`. -/
def setKeyOf : CacheOp → Option String
  | CacheOp.set c s _ _ => some (get_cache_key c s)
  | CacheOp.get _ _ _ => none

theorem cacheGet_preserves_cache (st : CacheService) (c s : String) (n : Int) :
    ((CacheService.get st c s n).2).cache = st.cache := by
  cases hl : lookupPy st.cache (get_cache_key c s) with
  | none => simp [CacheService.get, hl]
  | some entry =>
    by_cases hv : entry.is_valid st.max_age_seconds n
    · simp [CacheService.get, hl, hv]
    · simp [CacheService.get, hl, hv]

theorem runCacheOps_keys : ∀ (ops : List CacheOp) (st : CacheService),
    (st.cache.map Prod.fst).Nodup →
    ((runCacheOps st ops).cache.map Prod.fst).Nodup ∧
    ((runCacheOps st ops).cache.map Prod.fst).toFinset =
      (st.cache.map Prod.fst).toFinset ∪ (ops.filterMap setKeyOf).toFinset := by
  intro ops
  induction ops with
  | nil => intro st h; exact ⟨h, by simp [runCacheOps]⟩
  | cons op rest ih =>
    intro st h
    cases op with
    | get c s n =>
      have hcache := cacheGet_preserves_cache st c s n
      have hnd : (((CacheService.get st c s n).2).cache.map Prod.fst).Nodup := by
        rw [hcache]; exact h
      rcases ih _ hnd with ⟨ih1, ih2⟩
      refine ⟨ih1, ?_⟩
      rw [show runCacheOps st (CacheOp.get c s n :: rest) =
        runCacheOps (CacheService.get st c s n).2 rest from rfl]
      rw [ih2, hcache]
      simp [setKeyOf]
    | set c s d n =>
      have hnd : (((CacheService.set st c s d n)).cache.map Prod.fst).Nodup :=
        nodup_keys_insertPy _ _ h
      rcases ih _ hnd with ⟨ih1, ih2⟩
      refine ⟨ih1, ?_⟩
      rw [show runCacheOps st (CacheOp.set c s d n :: rest) =
        runCacheOps (CacheService.set st c s d n) rest from rfl]
      rw [ih2]
      have hkeys : ((CacheService.set st c s d n).cache.map Prod.fst).toFinset =
          insert (get_cache_key c s) (st.cache.map Prod.fst).toFinset := by
        have hcache : (CacheService.set st c s d n).cache =
            insertPy (get_cache_key c s) ⟨c, s, d, n⟩ st.cache := rfl
        rw [hcache]
        by_cases hk : get_cache_key c s ∈ st.cache.map Prod.fst
        · rw [map_fst_insertPy_of_mem _ hk]
          rw [Finset.insert_eq_self.mpr (List.mem_toFinset.mpr hk)]
        · rw [insertPy_of_not_mem _ hk, List.map_append, List.toFinset_append]
          apply Finset.ext
          intro a
          simp [or_comm]
      rw [hkeys]
      rw [show (CacheOp.set c s d n :: rest).filterMap setKeyOf =
        get_cache_key c s :: rest.filterMap setKeyOf from rfl]
      rw [List.toFinset_cons]
      apply Finset.ext
      intro a
      simp

/-- C6: `get` returns the stored data and bumps `hits` exactly when the
key is present and the entry's age is under the TTL; otherwise (absent,
or present but expired) it returns `None` and bumps `misses`; `get`
never changes the store itself, and replaying any call sequence from a
fresh cache leaves exactly one entry per distinct key ever `put`. -/
theorem cache_get_contract :
    (∀ (st : CacheService) (course student_id : String) (now : Int)
      (entry : CacheEntry),
      lookupPy st.cache (get_cache_key course student_id) = some entry →
      now - entry.timestamp < st.max_age_seconds →
      CacheService.get st course student_id now =
        (some entry.data, { st with hits := st.hits + 1 })) ∧
    (∀ (st : CacheService) (course student_id : String) (now : Int),
      (∀ entry, lookupPy st.cache (get_cache_key course student_id) = some entry →
        ¬ (now - entry.timestamp < st.max_age_seconds)) →
      CacheService.get st course student_id now =
        (none, { st with misses := st.misses + 1 })) ∧
    (∀ (st : CacheService) (course student_id : String) (now : Int),
      ((CacheService.get st course student_id now).2).cache = st.cache) ∧
    (∀ (ttl : Int) (ops : List CacheOp),
      ((runCacheOps (CacheService.init ttl) ops).cache).length =
        ((ops.filterMap setKeyOf).toFinset).card) := by
  refine ⟨?_, ?_, ?_, ?_⟩
  · intro st course student_id now entry hl hv
    have hvb : entry.is_valid st.max_age_seconds now = true := by
      simp [CacheEntry.is_valid, hv]
    simp [CacheService.get, hl, hvb]
  · intro st course student_id now hno
    cases hl : lookupPy st.cache (get_cache_key course student_id) with
    | none => simp [CacheService.get, hl]
    | some entry =>
      have hvb : entry.is_valid st.max_age_seconds now = false := by
        unfold CacheEntry.is_valid
        exact decide_eq_false (hno entry hl)
      simp [CacheService.get, hl, hvb]
  · exact cacheGet_preserves_cache
  · intro ttl ops
    rcases runCacheOps_keys ops (CacheService.init ttl) (by simp [CacheService.init])
      with ⟨hnd, hkeys⟩
    have h1 : ((runCacheOps (CacheService.init ttl) ops).cache).length =
        ((runCacheOps (CacheService.init ttl) ops).cache.map Prod.fst).length := by
      rw [List.length_map]
    rw [h1, ← List.toFinset_card_of_nodup hnd, hkeys]
    have h2 : ((CacheService.init ttl).cache.map Prod.fst).toFinset = ∅ := by
      simp [CacheService.init]
    rw [h2, Finset.empty_union]

/-- The concrete cache entry used by the C6 witness. -/
def c6entry : CacheEntry := ⟨"CSOPESY", "12345678", [], 5⟩

/-- The concrete one-entry cache state used by the C6 witness. -/
def c6st : CacheService :=
  ⟨[(get_cache_key "CSOPESY" "12345678", c6entry)], 60, 0, 0⟩

/-- Closed witness for the C6 theorem: a fresh entry is a hit within the
TTL, and an expired entry is a miss. -/
theorem cache_get_contract_witness :
    (lookupPy c6st.cache (get_cache_key "CSOPESY" "12345678") = some c6entry) ∧
    ((10 : Int) - c6entry.timestamp < c6st.max_age_seconds) ∧
    CacheService.get c6st "CSOPESY" "12345678" 10 =
      (some c6entry.data, { c6st with hits := c6st.hits + 1 }) ∧
    CacheService.get c6st "CSOPESY" "12345678" 100 =
      (none, { c6st with misses := c6st.misses + 1 }) :=
  ⟨by decide, by decide,
    cache_get_contract.1 c6st "CSOPESY" "12345678" 10 c6entry (by decide) (by decide),
    cache_get_contract.2.1 c6st "CSOPESY" "12345678" 100 (by
      intro entry hl
      have hcomp : lookupPy c6st.cache (get_cache_key "CSOPESY" "12345678") =
          some c6entry := by decide
      rw [hcomp] at hl
      injection hl with hl
      rw [← hl]
      decide)⟩

/-- Behaviour of one external HTTP fetch in `fetch_course_data`: a 200
with a JSON body, a 503 (raises the blocked error), or any other
network/HTTP failure (raises a client error). -/
inductive Upstream : Type
  | ok (data : List Section)
  | blocked
  | clientError
deriving DecidableEq

/-- Result of `fetch_course_data`: returned data, or one of the two
exceptions it can raise. -/
inductive FetchOutcome : Type
  | data (sections : List Section)
  | blocked
  | clientError
deriving DecidableEq

/-- `ScraperService.fetch_course_data`, returning the outcome, the cache
state after the call, and how many times the external fetch ran. -/
def fetch_course_data (cacheEnabled : Bool) (upstream : Upstream)
    (st : CacheService) (course id_no : String) (now : Int)
    (use_cache : Bool) : FetchOutcome × CacheService × Nat :=
  let doFetch : CacheService → FetchOutcome × CacheService × Nat := fun st' =>
    match upstream with
    | Upstream.blocked => (FetchOutcome.blocked, st', 1)
    | Upstream.clientError => (FetchOutcome.clientError, st', 1)
    | Upstream.ok d => (FetchOutcome.data d,
        if cacheEnabled then CacheService.set st' course id_no d now else st', 1)
  if use_cache && cacheEnabled then
    match CacheService.get st course id_no now with
    | (some d, st1) => (FetchOutcome.data d, st1, 0)
    | (none, st1) => doFetch st1
  else doFetch st

/-- Result of `fetch_and_filter_data`: `result none` models the `None`
return on client errors, `blocked` the re-raised blocked error. -/
inductive FilterOutcome : Type
  | result (sections : Option (List Section))
  | blocked
deriving DecidableEq

/-- Python truthiness of the `class_numbers` argument. -/
def cnsTruthy : Option (List Int) → Bool
  | none => false
  | some l => !l.isEmpty

/-- The filter step of `fetch_and_filter_data`:
`[s for s in sections if s.get("classNbr") in class_numbers]`, applied
only when `class_numbers` is truthy. -/
def applyFilter (class_numbers : Option (List Int))
    (sections : List Section) : List Section :=
  if cnsTruthy class_numbers then
    sections.filter (fun s => match s.classNbr with
      | some k => (class_numbers.getD []).contains k
      | none => false)
  else sections

/-- `ScraperService.fetch_and_filter_data`. -/
def fetch_and_filter_data (cacheEnabled : Bool) (upstream : Upstream)
    (st : CacheService) (course id_no : String)
    (class_numbers : Option (List Int)) (now : Int) (use_cache : Bool) :
    FilterOutcome × CacheService × Nat :=
  match fetch_course_data cacheEnabled upstream st course id_no now use_cache with
  | (FetchOutcome.data d, st', n) =>
    (FilterOutcome.result (some (applyFilter class_numbers d)), st', n)
  | (FetchOutcome.blocked, st', n) => (FilterOutcome.blocked, st', n)
  | (FetchOutcome.clientError, st', n) => (FilterOutcome.result none, st', n)

/-- C5: with caching enabled, a valid cache hit answers the request with
zero external fetches (serving the filtered cached snapshot); a cache
miss with a successful upstream fetch runs the external fetch exactly
once and stores the full unfiltered snapshot in the cache, even when a
class-number filter was requested; a (non-empty) filter keeps exactly
the sections whose class number is in the filter list, in the order of
the unfiltered snapshot. -/
theorem fetcher_contract :
    (∀ (upstream : Upstream) (st : CacheService) (course id_no : String)
      (cns : Option (List Int)) (now : Int) (d : List Section)
      (st1 : CacheService),
      CacheService.get st course id_no now = (some d, st1) →
      fetch_and_filter_data true upstream st course id_no cns now true =
        (FilterOutcome.result (some (applyFilter cns d)), st1, 0)) ∧
    (∀ (upstream : Upstream) (st : CacheService) (course id_no : String)
      (cns : Option (List Int)) (now : Int) (st1 : CacheService)
      (d : List Section),
      CacheService.get st course id_no now = (none, st1) →
      upstream = Upstream.ok d →
      fetch_and_filter_data true upstream st course id_no cns now true =
        (FilterOutcome.result (some (applyFilter cns d)),
          CacheService.set st1 course id_no d now, 1) ∧
      lookupPy (CacheService.set st1 course id_no d now).cache
          (get_cache_key course id_no) = some ⟨course, id_no, d, now⟩) ∧
    (∀ (d : List Section) (l : List Int), l ≠ [] →
      (∀ s, s ∈ applyFilter (some l) d ↔
        (s ∈ d ∧ ∃ k, s.classNbr = some k ∧ k ∈ l)) ∧
      (applyFilter (some l) d).Sublist d) := by
  refine ⟨?_, ?_, ?_⟩
  · intro upstream st course id_no cns now d st1 hget
    simp [fetch_and_filter_data, fetch_course_data, hget]
  · intro upstream st course id_no cns now st1 d hget hup
    subst hup
    constructor
    · simp [fetch_and_filter_data, fetch_course_data, hget]
    · have hcache : (CacheService.set st1 course id_no d now).cache =
          insertPy (get_cache_key course id_no) ⟨course, id_no, d, now⟩
            st1.cache := rfl
      rw [hcache]
      exact lookupPy_insertPy_self _ _ _
  · intro d l hl
    have htruthy : cnsTruthy (some l) = true := by
      simp [cnsTruthy, hl]
    constructor
    · intro s
      unfold applyFilter
      rw [if_pos htruthy]
      rw [List.mem_filter]
      constructor
      · rintro ⟨hs, hp⟩
        refine ⟨hs, ?_⟩
        cases hk : s.classNbr with
        | none => rw [hk] at hp; simp at hp
        | some k =>
          rw [hk] at hp
          refine ⟨k, rfl, ?_⟩
          simp only [Option.getD_some] at hp
          exact List.elem_iff.mp hp
      · rintro ⟨hs, k, hk, hkl⟩
        refine ⟨hs, ?_⟩
        rw [hk]
        simp only [Option.getD_some]
        exact List.elem_iff.mpr hkl
    · unfold applyFilter
      rw [if_pos htruthy]
      exact List.filter_sublist _

/-- Concrete cached snapshot for the C5 witness. -/
def c5cached : List Section :=
  [{ classNbr := some 11, enrolled := some (EnrollVal.int 1), course := some "A",
     sectionLabel := some "S1", enrlCap := none, remarks := none,
     instructor := none, meetings := [] },
   { classNbr := some 22, enrolled := some (EnrollVal.int 2), course := some "A",
     sectionLabel := some "S2", enrlCap := none, remarks := none,
     instructor := none, meetings := [] }]

/-- Concrete one-entry cache state for the C5 witness, fresh at `now = 0`. -/
def c5st : CacheService :=
  ⟨[(get_cache_key "A" "12345678", ⟨"A", "12345678", c5cached, 0⟩)], 60, 0, 0⟩

/-- Closed witness for the C5 theorem: a valid hit with a filter request
serves the filtered cached data without any external fetch, and a miss
(empty cache) fetches once and caches the unfiltered snapshot. -/
theorem fetcher_contract_witness :
    (CacheService.get c5st "A" "12345678" 1 =
      (some c5cached, { c5st with hits := 1 })) ∧
    fetch_and_filter_data true Upstream.blocked c5st "A" "12345678"
      (some [22]) 1 true =
      (FilterOutcome.result (some (applyFilter (some [22]) c5cached)),
        { c5st with hits := 1 }, 0) ∧
    (CacheService.get (CacheService.init 60) "A" "12345678" 1 =
      (none, { CacheService.init 60 with misses := 1 })) ∧
    fetch_and_filter_data true (Upstream.ok c5cached) (CacheService.init 60)
      "A" "12345678" (some [22]) 1 true =
      (FilterOutcome.result (some (applyFilter (some [22]) c5cached)),
        CacheService.set { CacheService.init 60 with misses := 1 }
          "A" "12345678" c5cached 1, 1) ∧
    ([22] : List Int) ≠ [] ∧
    applyFilter (some [22]) c5cached =
      [{ classNbr := some 22, enrolled := some (EnrollVal.int 2),
         course := some "A", sectionLabel := some "S2", enrlCap := none,
         remarks := none, instructor := none, meetings := [] }] ∧
    (applyFilter (some [22]) c5cached).Sublist c5cached :=
  ⟨by decide,
    fetcher_contract.1 Upstream.blocked c5st "A" "12345678" (some [22]) 1
      c5cached { c5st with hits := 1 } (by decide),
    by decide,
    (fetcher_contract.2.1 (Upstream.ok c5cached) (CacheService.init 60) "A"
      "12345678" (some [22]) 1 { CacheService.init 60 with misses := 1 }
      c5cached (by decide) rfl).1,
    by decide, by decide,
    (fetcher_contract.2.2 c5cached [22] (by decide)).2⟩

/-- Rendering of an optional string field with a `.get` default. -/
def showOptStr (v : Option String) (dflt : String) : String := v.getD dflt

/-- Rendering of an optional integer field with a `.get` default. -/
def showOptInt (v : Option Int) (dflt : String) : String :=
  match v with
  | some n => toString n
  | none => dflt

/-- Rendering of an optional enrollment value with a `.get` default. -/
def showEnroll (v : Option EnrollVal) (dflt : String) : String :=
  match v with
  | some (EnrollVal.int n) => toString n
  | some (EnrollVal.other s) => s
  | none => dflt

/-- One meeting line of `format_section`:
`f"{m.get('day', '')} {m.get('time', '')} {m.get('room') or 'Online'}"`. -/
def meetingText (m : Meeting) : String :=
  (m.day.getD "") ++ " " ++ (m.time.getD "") ++ " " ++
    (match m.room with
     | some r => if r = "" then "Online" else r
     | none => "Online")

/-- `format_section` from `bot/formatter.py`. -/
def format_section (s : Section) : String :=
  let stripped := ((s.meetings.map meetingText).map pyStrip).filter
    (fun m => m != "")
  let joined := String.intercalate " | " stripped
  let meetings_str := if joined = "" then "No schedule information" else joined
  "*" ++ showOptStr s.course "N/A" ++ " " ++ showOptStr s.sectionLabel "N/A" ++
    "* (Class " ++ showOptInt s.classNbr "N/A" ++ ")\n" ++
    "Enrolled: " ++ showEnroll s.enrolled "?" ++ "/" ++
    showEnroll s.enrlCap "?" ++ " | " ++ showOptStr s.remarks "" ++ "\n" ++
    "Instructor: " ++ showOptStr s.instructor "TBA" ++ "\n" ++
    "Schedule: " ++ meetings_str ++ "\n"

/-- One enrollment-change line of `compose_update_lines`. -/
def changeLine (change : EnrollmentChange) : String :=
  let s := change.sec
  let delta := change.new_enrolled - change.old_enrolled
  let emoji := if delta > 0 then "📈" else "📉"
  emoji ++ " " ++ showOptStr s.course "?" ++ " " ++
    showOptStr s.sectionLabel "?" ++ " (Class " ++
    showOptInt s.classNbr "?" ++ ") `" ++ toString change.old_enrolled ++
    " ➡️ " ++ toString change.new_enrolled ++ "` / " ++ showEnroll s.enrlCap "?"

/-- `compose_update_lines` from `bot/formatter.py`. -/
def compose_update_lines (course : String) (changes : DiffResult)
    (title_suffix : String) : List String :=
  ["*Updates for " ++ course ++ title_suffix ++ "* 📢"] ++
  (if changes.added.isEmpty then [] else
    "\n*🆕 New sections added*" :: changes.added.map format_section) ++
  (if changes.removed.isEmpty then [] else
    "\n*🗑️ Sections removed*" :: changes.removed.map format_section) ++
  (if changes.enrollment.isEmpty then [] else
    "\n*📊 Enrollment changes*" ::
      (sortChanges changes.enrollment).map changeLine)

/-- The send loop of `send_long_message`: `del` says whether the n-th
`bot.send_message` call of this invocation succeeds.  A failing chunk is
caught and logged; if it was the first chunk, a fallback error notice is
sent outside any handler, so its failure propagates (`Except.error`);
in every case the loop then stops. -/
def sendLoop (del : Nat → Bool) : Nat → Nat → List String → Except Unit Unit
  | _, _, [] => Except.ok ()
  | att, idx, _ :: rest =>
    if del att then sendLoop del (att + 1) (idx + 1) rest
    else if idx = 1 then
      (if del (att + 1) then Except.ok () else Except.error ())
    else Except.ok ()

/-- `NotificationService.send_long_message`: chunk, label, and send. -/
def send_long_message (del : Nat → Bool) (text_lines : List String)
    (title : String) : Except Unit Unit :=
  sendLoop del 0 1 (messagesOf title (chunkLines MSG_LIMIT text_lines))

/-- `models/tracking.py` `TrackingInfo`. -/
structure TrackingInfo : Type where
  chat_id : Int
  student_id : String
  course : String
  track_all : Bool
  class_numbers : List Int
deriving DecidableEq

/-- `TrackingInfo.get_data_key`. -/
def TrackingInfo.get_data_key (i : TrackingInfo) : String :=
  if i.track_all then i.course else i.course ++ ":sections"

/-- `models/tracking.py` `UserPreferences` (sections and previous_data
are Python dicts, modelled as association lists). -/
structure UserPreferences : Type where
  id_no : String
  courses : List String
  sections : List (String × List Int)
  previous_data : List (String × List Section)
deriving DecidableEq

/-- Observable outcome of `fetch_and_filter_data` as seen from
`process_course_updates`: data, the blocked error, or any failure that
makes it return `None` (client errors, unexpected errors, `None` body). -/
inductive EnvOutcome : Type
  | ok (sections : List Section)
  | blocked
  | failed
deriving DecidableEq

/-- Observable actions of one broadcast cycle: `fetched i k` records that
the item was processed (its fetch attempted), `notified i k` that a
change notification send was started for it. -/
inductive Event : Type
  | fetched (chat_id : Int) (key : String)
  | notified (chat_id : Int) (key : String)
deriving DecidableEq

/-- Python `any(changes.values())`. -/
def anyChanges (c : DiffResult) : Bool :=
  !c.added.isEmpty || !c.removed.isEmpty || !c.enrollment.isEmpty

/-- The `(Sections: ...)` suffix built in `process_course_updates`. -/
def suffixOf (i : TrackingInfo) : String :=
  if i.track_all then "" else
    " (Sections: " ++ String.intercalate ", " (i.class_numbers.map toString) ++ ")"

/-- `NotificationService.process_course_updates`, with the scraper call
abstracted by `env` and delivery by `del`.  Returns the value of the
Python call (`None` or the fetched sections), or `Except.error` when the
unprotected fallback send raised, plus the observable events. -/
def process_course_updates (env : TrackingInfo → EnvOutcome) (del : Nat → Bool)
    (info : TrackingInfo) (previous_data : List (String × List Section)) :
    Except Unit (Option (List Section)) × List Event :=
  let key := info.get_data_key
  let previous_sections := (lookupPy previous_data key).getD []
  match env info with
  | EnvOutcome.blocked => (Except.ok none, [Event.fetched info.chat_id key])
  | EnvOutcome.failed => (Except.ok none, [Event.fetched info.chat_id key])
  | EnvOutcome.ok current =>
    let changes := diff_courses previous_sections current
    if anyChanges changes then
      let lines := compose_update_lines info.course changes (suffixOf info)
      let title := "Updates for " ++ info.course ++ suffixOf info
      match send_long_message del lines title with
      | Except.error _ =>
        (Except.error (),
          [Event.fetched info.chat_id key, Event.notified info.chat_id key])
      | Except.ok _ =>
        (Except.ok (some current),
          [Event.fetched info.chat_id key, Event.notified info.chat_id key])
    else (Except.ok (some current), [Event.fetched info.chat_id key])

/-- The enumeration phase of `broadcast_updates`: subscribers without an
id are skipped; whole-course items come first, then non-empty
section-specific items. -/
def build_tracking_infos (subs : List (Int × UserPreferences)) :
    List TrackingInfo :=
  (subs.filter (fun p => p.2.id_no != "")).flatMap (fun p =>
    p.2.courses.map (fun c => TrackingInfo.mk p.1 p.2.id_no c true []) ++
    (p.2.sections.filter (fun q => !q.2.isEmpty)).map (fun q =>
      TrackingInfo.mk p.1 p.2.id_no q.1 false q.2))

/-- Result of one broadcast cycle: final subscriptions, events, and
whether the cycle ran to completion (an uncaught exception anywhere in
the loop aborts the cycle before `storage.save()`). -/
structure BroadcastResult : Type where
  subscriptions : List (Int × UserPreferences)
  events : List Event
  completed : Bool
deriving DecidableEq

/-- The per-item loop of `UpdateScheduler.broadcast_updates`. -/
def broadcast_loop (env : TrackingInfo → EnvOutcome)
    (del : TrackingInfo → Nat → Bool) :
    List TrackingInfo → List (Int × UserPreferences) → List Event →
    BroadcastResult
  | [], subs, evs => ⟨subs, evs, true⟩
  | info :: rest, subs, evs =>
    match lookupPy subs info.chat_id with
    | none => ⟨subs, evs, false⟩
    | some prefs =>
      match process_course_updates env (del info) info prefs.previous_data with
      | (Except.error _, evs') => ⟨subs, evs ++ evs', false⟩
      | (Except.ok none, evs') => broadcast_loop env del rest subs (evs ++ evs')
      | (Except.ok (some current), evs') =>
        let pd' := insertPy info.get_data_key current prefs.previous_data
        let prefs' : UserPreferences := { prefs with previous_data := pd' }
        broadcast_loop env del rest (insertPy info.chat_id prefs' subs)
          (evs ++ evs')

/-- `UpdateScheduler.broadcast_updates`. -/
def broadcast_updates (env : TrackingInfo → EnvOutcome)
    (del : TrackingInfo → Nat → Bool)
    (subs : List (Int × UserPreferences)) : BroadcastResult :=
  broadcast_loop env del (build_tracking_infos subs) subs []

/-- A delivery collaborator whose sends all succeed. -/
def delAlwaysOk : TrackingInfo → Nat → Bool := fun _ _ => true

theorem sendLoop_ok_of_true : ∀ (msgs : List String) (att idx : Nat),
    sendLoop (fun _ => true) att idx msgs = Except.ok () := by
  intro msgs
  induction msgs with
  | nil => intro att idx; rfl
  | cons m rest ih =>
    intro att idx
    simp only [sendLoop, if_pos rfl]
    exact ih (att + 1) (idx + 1)

theorem sendLoop_ne_error_of_idx (del : Nat → Bool) :
    ∀ (msgs : List String) (att idx : Nat), 2 ≤ idx →
      sendLoop del att idx msgs ≠ Except.error () := by
  intro msgs
  induction msgs with
  | nil => intro att idx _; simp [sendLoop]
  | cons m rest ih =>
    intro att idx hidx
    simp only [sendLoop]
    cases hd : del att with
    | true =>
      simp only [if_pos rfl]
      exact ih (att + 1) (idx + 1) (by omega)
    | false =>
      have hidx1 : idx ≠ 1 := by omega
      simp [hidx1]

theorem messagesOf_cons (title c : String) (cs : List String) :
    ∃ m ms, messagesOf title (c :: cs) = m :: ms := by
  unfold messagesOf
  rw [List.mapIdx_cons]
  exact ⟨_, _, rfl⟩

theorem send_error_iff (del : Nat → Bool) (text_lines : List String)
    (title : String) :
    send_long_message del text_lines title = Except.error () ↔
    (chunkLines MSG_LIMIT text_lines ≠ [] ∧ del 0 = false ∧ del 1 = false) := by
  unfold send_long_message
  cases hc : chunkLines MSG_LIMIT text_lines with
  | nil => simp [messagesOf, sendLoop]
  | cons c cs =>
    rcases messagesOf_cons title c cs with ⟨m, ms, hm⟩
    rw [hm]
    simp only [sendLoop]
    cases hd0 : del 0 with
    | true =>
      simp only [if_pos rfl]
      constructor
      · intro h
        exact absurd h (sendLoop_ne_error_of_idx del ms 1 2 (by omega))
      · rintro ⟨_, h0, _⟩
        exact Bool.noConfusion h0
    | false =>
      have h1eq : (1 : Nat) = 1 := rfl
      simp only [Bool.false_eq_true, if_false, if_pos h1eq]
      cases hd1 : del (0 + 1) with
      | true =>
        have hd1' : del 1 = true := by simpa using hd1
        simp [hd0, hd1']
      | false =>
        have hd1' : del 1 = false := by simpa using hd1
        simp [hd0, hd1']

theorem process_ok_of_delivery (env : TrackingInfo → EnvOutcome)
    (del : Nat → Bool) (info : TrackingInfo)
    (pd : List (String × List Section)) (current : List Section)
    (henv : env info = EnvOutcome.ok current)
    (hdel : del 0 = true ∨ del 1 = true) :
    (process_course_updates env del info pd).1 = Except.ok (some current) := by
  have hsend : ∀ (lines : List String) (title : String),
      send_long_message del lines title ≠ Except.error () := by
    intro lines title herr
    rcases (send_error_iff del lines title).mp herr with ⟨_, h0, h1⟩
    rcases hdel with h | h
    · rw [h0] at h; exact Bool.noConfusion h
    · rw [h1] at h; exact Bool.noConfusion h
  cases hch : anyChanges (diff_courses
      ((lookupPy pd info.get_data_key).getD []) current) with
  | false => simp [process_course_updates, henv, hch]
  | true =>
    cases hs : send_long_message del
        (compose_update_lines info.course
          (diff_courses ((lookupPy pd info.get_data_key).getD []) current)
          (suffixOf info))
        ("Updates for " ++ info.course ++ suffixOf info) with
    | error u => cases u; exact absurd hs (hsend _ _)
    | ok u =>
      cases u
      simp [process_course_updates, henv, hch, hs]

theorem insertPy_ne_nil {α β : Type} [DecidableEq α] (k : α) (v : β)
    (m : List (α × β)) : insertPy k v m ≠ [] := by
  cases m with
  | nil => simp [insertPy]
  | cons p rest =>
    by_cases hp : p.1 = k
    · simp [insertPy, hp]
    · simp [insertPy, hp]

theorem foldl_indexStep_eq_nil : ∀ (ss : List Section) (m : List (Int × Section)),
    ss.foldl indexStep m = [] → m = [] ∧ ∀ s ∈ ss, s.classNbr = none := by
  intro ss
  induction ss with
  | nil => intro m h; exact ⟨h, by simp⟩
  | cons s rest ih =>
    intro m h
    rw [List.foldl_cons] at h
    rcases ih (indexStep m s) h with ⟨hstep, hrest⟩
    cases hs : s.classNbr with
    | some k =>
      rw [show indexStep m s = insertPy k s m from by simp [indexStep, hs]] at hstep
      exact absurd hstep (insertPy_ne_nil k s m)
    | none =>
      rw [show indexStep m s = m from by simp [indexStep, hs]] at hstep
      refine ⟨hstep, ?_⟩
      intro t ht
      rcases List.mem_cons.mp ht with ht | ht
      · subst ht; exact hs
      · exact hrest t ht

theorem anyChanges_diff_nil (current : List Section)
    (hne : ∃ s ∈ current, s.classNbr.isSome) :
    anyChanges (diff_courses [] current) = true := by
  have hbi : buildIndex current ≠ [] := by
    intro hnil
    rcases hne with ⟨s, hs, hsome⟩
    rcases foldl_indexStep_eq_nil current [] hnil with ⟨_, hall⟩
    rw [hall s hs] at hsome
    exact Bool.noConfusion hsome
  have hadded : (diff_courses [] current).added =
      (buildIndex current).map (fun p => p.2) := by
    simp only [diff_courses]
    congr 1
    rw [List.filter_eq_self]
    intro p _
    rfl
  have hne' : (diff_courses [] current).added ≠ [] := by
    rw [hadded]
    intro hmapnil
    exact hbi (List.map_eq_nil_iff.mp hmapnil)
  have hfalse : (diff_courses [] current).added.isEmpty = false :=
    List.isEmpty_eq_false.mpr hne'
  simp [anyChanges, hfalse]

theorem process_first_fetch (env : TrackingInfo → EnvOutcome) (del : Nat → Bool)
    (info : TrackingInfo) (pd : List (String × List Section))
    (current : List Section)
    (hprev : lookupPy pd info.get_data_key = none)
    (henv : env info = EnvOutcome.ok current)
    (hne : ∃ s ∈ current, s.classNbr.isSome)
    (hdel : ∀ n, del n = true) :
    process_course_updates env del info pd =
      (Except.ok (some current),
        [Event.fetched info.chat_id info.get_data_key,
         Event.notified info.chat_id info.get_data_key]) := by
  have hch : anyChanges (diff_courses
      ((lookupPy pd info.get_data_key).getD []) current) = true := by
    rw [hprev]
    exact anyChanges_diff_nil current hne
  have hdel' : del = fun _ => true := funext hdel
  have hsend : ∀ (lines : List String) (title : String),
      send_long_message del lines title = Except.ok () := by
    intro lines title
    rw [hdel']
    exact sendLoop_ok_of_true _ _ _
  simp [process_course_updates, henv, hch, hsend]

/-- Marks the per-item "processed / fetch attempted" events. -/
def isFetched : Event → Bool
  | Event.fetched _ _ => true
  | Event.notified _ _ => false

theorem process_delT_events (env : TrackingInfo → EnvOutcome) (del : Nat → Bool)
    (hdel : ∀ n, del n = true) (info : TrackingInfo)
    (pd : List (String × List Section)) :
    (process_course_updates env del info pd).1 ≠ Except.error () ∧
    ((process_course_updates env del info pd).2).filter isFetched =
      [Event.fetched info.chat_id info.get_data_key] := by
  have hdel' : del = fun _ => true := funext hdel
  have hsend : ∀ (lines : List String) (title : String),
      send_long_message del lines title = Except.ok () := by
    intro lines title
    rw [hdel']
    exact sendLoop_ok_of_true _ _ _
  cases henv : env info with
  | blocked => constructor <;> simp [process_course_updates, henv, isFetched]
  | failed => constructor <;> simp [process_course_updates, henv, isFetched]
  | ok current =>
    cases hch : anyChanges (diff_courses
        ((lookupPy pd info.get_data_key).getD []) current) with
    | true => constructor <;> simp [process_course_updates, henv, hch, hsend, isFetched]
    | false => constructor <;> simp [process_course_updates, henv, hch, isFetched]

theorem lookupPy_insertPy_isSome {α β : Type} [DecidableEq α] {m : List (α × β)}
    {k' : α} (k : α) (v : β) (h : (lookupPy m k').isSome) :
    (lookupPy (insertPy k v m) k').isSome := by
  by_cases hk : k' = k
  · subst hk
    rw [lookupPy_insertPy_self]
    rfl
  · rw [lookupPy_insertPy_ne v m hk]
    exact h

theorem build_infos_chat_isSome (subs : List (Int × UserPreferences)) :
    ∀ i ∈ build_tracking_infos subs, (lookupPy subs i.chat_id).isSome := by
  intro i hi
  unfold build_tracking_infos at hi
  rcases List.mem_flatMap.mp hi with ⟨p, hp, hip⟩
  have hpsubs : p ∈ subs := (List.mem_filter.mp hp).1
  have hkey : i.chat_id = p.1 := by
    rcases List.mem_append.mp hip with h | h
    · rcases List.mem_map.mp h with ⟨c, _, hceq⟩
      rw [← hceq]
    · rcases List.mem_map.mp h with ⟨q, _, hqeq⟩
      rw [← hqeq]
  rw [hkey]
  exact lookupPy_isSome_of_key_mem (List.mem_map.mpr ⟨p, hpsubs, rfl⟩)

theorem broadcast_loop_fetches (env : TrackingInfo → EnvOutcome) :
    ∀ (infos : List TrackingInfo) (subs : List (Int × UserPreferences))
      (evs : List Event),
      (∀ i ∈ infos, (lookupPy subs i.chat_id).isSome) →
      ((broadcast_loop env delAlwaysOk infos subs evs).events).filter isFetched =
        evs.filter isFetched ++
          infos.map (fun i => Event.fetched i.chat_id i.get_data_key) := by
  intro infos
  induction infos with
  | nil => intro subs evs _; simp [broadcast_loop]
  | cons info rest ih =>
    intro subs evs hsome
    rcases Option.isSome_iff_exists.mp (hsome info (List.mem_cons_self _ _)) with
      ⟨prefs, hl⟩
    rcases process_delT_events env (delAlwaysOk info) (fun n => rfl) info
      prefs.previous_data with ⟨hnoerr, hevts⟩
    cases hp : process_course_updates env (delAlwaysOk info) info
        prefs.previous_data with
    | mk r evs' =>
      rw [hp] at hnoerr hevts
      simp only at hnoerr hevts
      cases r with
      | error u =>
        cases u
        exact absurd rfl hnoerr
      | ok opt =>
        cases opt with
        | none =>
          simp only [broadcast_loop, hl, hp]
          rw [ih subs (evs ++ evs') (fun i h => hsome i (List.mem_cons_of_mem _ h)),
            List.filter_append, hevts]
          simp
        | some current =>
          simp only [broadcast_loop, hl, hp]
          rw [ih _ (evs ++ evs')
              (fun i h => lookupPy_insertPy_isSome _ _
                (hsome i (List.mem_cons_of_mem _ h))),
            List.filter_append, hevts]
          simp

theorem broadcast_single_course (env : TrackingInfo → EnvOutcome)
    (del : TrackingInfo → Nat → Bool) (cid : Int) (sid course : String)
    (current : List Section) (pd : List (String × List Section))
    (evs : List Event) (hsid : (sid != "") = true)
    (hproc : process_course_updates env
        (del (TrackingInfo.mk cid sid course true []))
        (TrackingInfo.mk cid sid course true []) pd =
      (Except.ok (some current), evs)) :
    broadcast_updates env del [(cid, UserPreferences.mk sid [course] [] pd)] =
      ⟨[(cid, UserPreferences.mk sid [course] [] (insertPy course current pd))],
        evs, true⟩ := by
  have hinfos : build_tracking_infos
      [(cid, UserPreferences.mk sid [course] [] pd)] =
      [TrackingInfo.mk cid sid course true []] := by
    simp [build_tracking_infos, hsid]
  unfold broadcast_updates
  rw [hinfos]
  have hl : lookupPy [(cid, UserPreferences.mk sid [course] [] pd)] cid =
      some (UserPreferences.mk sid [course] [] pd) := by
    simp [lookupPy]
  simp only [broadcast_loop, hl, hproc]
  simp [insertPy, TrackingInfo.get_data_key, broadcast_loop]

/-- Section returned by the fetch in the C1 scenario. -/
def c1sec : Section :=
  ⟨some 1111, some (EnrollVal.int 20), some "CSOPESY", some "S11A",
    some (EnrollVal.int 30), some "", some "X", []⟩

/-- Fetch collaborator for the C1 scenario: always returns one section. -/
def c1env : TrackingInfo → EnvOutcome := fun _ => EnvOutcome.ok [c1sec]

/-- One subscriber tracking one course, with no previous snapshot. -/
def c1subs : List (Int × UserPreferences) :=
  [(1, UserPreferences.mk "12345678" ["CSOPESY"] [] [])]

/-- C1 counterexample: for a tracked item with no previous snapshot, the
first successful fetch DOES notify the subscriber (the diff against the
implicit empty snapshot reports every section as added, and
`any(changes.values())` is true), contradicting the claim that the first
fetch is treated as "no user-visible change". -/
theorem first_fetch_sends_notification_counterexample :
    lookupPy ([] : List (String × List Section)) "CSOPESY" = none ∧
    Event.notified 1 "CSOPESY" ∈
      (broadcast_updates c1env delAlwaysOk c1subs).events := by
  constructor
  · rfl
  · decide

/-- C1 (amended): for a tracked item with no previous snapshot under its
data key, the first successful fetch diffs against the empty snapshot, so
all fetched sections count as added and a notification IS sent (whenever
the snapshot holds at least one section with a class number); the fetched
snapshot is stored as the new baseline in the subscriber's previous-data
map. -/
theorem first_fetch_notifies_and_stores (cid : Int) (sid course : String)
    (current : List Section) (pd : List (String × List Section))
    (hsid : sid ≠ "") (hprev : lookupPy pd course = none)
    (hne : ∃ s ∈ current, s.classNbr.isSome)
    (env : TrackingInfo → EnvOutcome)
    (henv : env (TrackingInfo.mk cid sid course true []) =
      EnvOutcome.ok current) :
    Event.notified cid course ∈
      (broadcast_updates env delAlwaysOk
        [(cid, UserPreferences.mk sid [course] [] pd)]).events ∧
    (∃ prefs', lookupPy (broadcast_updates env delAlwaysOk
        [(cid, UserPreferences.mk sid [course] [] pd)]).subscriptions cid =
          some prefs' ∧
      lookupPy prefs'.previous_data course = some current) := by
  have hkey : (TrackingInfo.mk cid sid course true []).get_data_key = course := rfl
  have hproc := process_first_fetch env
    (delAlwaysOk (TrackingInfo.mk cid sid course true []))
    (TrackingInfo.mk cid sid course true []) pd current
    (by rw [hkey]; exact hprev) henv hne (fun n => rfl)
  have hb := broadcast_single_course env delAlwaysOk cid sid course current pd _
    (bne_iff_ne.mpr hsid) hproc
  rw [hb]
  constructor
  · simp [hkey]
  · exact ⟨UserPreferences.mk sid [course] [] (insertPy course current pd),
      by simp [lookupPy], lookupPy_insertPy_self _ _ _⟩

/-- Closed witness for the amended C1 theorem at the concrete scenario. -/
theorem first_fetch_notifies_and_stores_witness :
    ("12345678" : String) ≠ "" ∧
    lookupPy ([] : List (String × List Section)) "CSOPESY" = none ∧
    (∃ s ∈ [c1sec], s.classNbr.isSome) ∧
    c1env (TrackingInfo.mk 1 "12345678" "CSOPESY" true []) =
      EnvOutcome.ok [c1sec] ∧
    (Event.notified 1 "CSOPESY" ∈
      (broadcast_updates c1env delAlwaysOk
        [(1, UserPreferences.mk "12345678" ["CSOPESY"] [] [])]).events ∧
    (∃ prefs', lookupPy (broadcast_updates c1env delAlwaysOk
        [(1, UserPreferences.mk "12345678" ["CSOPESY"] [] [])]).subscriptions 1 =
          some prefs' ∧
      lookupPy prefs'.previous_data "CSOPESY" = some [c1sec])) :=
  ⟨by decide, rfl, by decide, rfl,
    first_fetch_notifies_and_stores 1 "12345678" "CSOPESY" [c1sec] []
      (by decide) rfl (by decide) c1env rfl⟩

/-- Fetch collaborator for the C2 scenario: the second course of three is
upstream-blocked, the others fetch fine. -/
def c2env : TrackingInfo → EnvOutcome := fun i =>
  if i.course = "BBB" then EnvOutcome.blocked else EnvOutcome.ok []

/-- One subscriber tracking three whole courses. -/
def c2subs : List (Int × UserPreferences) :=
  [(1, UserPreferences.mk "12345678" ["AAA", "BBB", "CCC"] [] [])]

/-- C2 counterexample: the blocked error on item 2 of 3 does NOT stop the
subscriber's remaining items: item 3 ("CCC") is still fetched in the same
cycle, contradicting the claim that no further fetch is attempted for
that subscriber. -/
theorem blocked_does_not_abort_counterexample :
    c2env (TrackingInfo.mk 1 "12345678" "BBB" true []) = EnvOutcome.blocked ∧
    Event.fetched 1 "CCC" ∈
      (broadcast_updates c2env delAlwaysOk c2subs).events := by
  constructor
  · decide
  · decide

/-- C2 (amended): an upstream-blocked fetch for an item only skips that
item for the cycle (its result is `None`: no notification, no snapshot
update), and the loop still processes every enumerated item — those of
the same subscriber and of other subscribers alike — exactly once. -/
theorem blocked_skips_single_item :
    (∀ (env : TrackingInfo → EnvOutcome) (del : Nat → Bool)
       (info : TrackingInfo) (pd : List (String × List Section)),
      env info = EnvOutcome.blocked →
      process_course_updates env del info pd =
        (Except.ok none, [Event.fetched info.chat_id info.get_data_key])) ∧
    (∀ (env : TrackingInfo → EnvOutcome) (subs : List (Int × UserPreferences)),
      ((broadcast_updates env delAlwaysOk subs).events).filter isFetched =
        (build_tracking_infos subs).map
          (fun i => Event.fetched i.chat_id i.get_data_key)) := by
  constructor
  · intro env del info pd henv
    simp [process_course_updates, henv]
  · intro env subs
    unfold broadcast_updates
    rw [broadcast_loop_fetches env (build_tracking_infos subs) subs []
      (build_infos_chat_isSome subs)]
    simp

/-- Closed witness for the amended C2 theorem at the concrete scenario. -/
theorem blocked_skips_single_item_witness :
    c2env (TrackingInfo.mk 1 "12345678" "BBB" true []) = EnvOutcome.blocked ∧
    process_course_updates c2env
      (delAlwaysOk (TrackingInfo.mk 1 "12345678" "BBB" true []))
      (TrackingInfo.mk 1 "12345678" "BBB" true []) [] =
      (Except.ok none,
        [Event.fetched 1 (TrackingInfo.mk 1 "12345678" "BBB" true []).get_data_key]) ∧
    ((broadcast_updates c2env delAlwaysOk c2subs).events).filter isFetched =
      (build_tracking_infos c2subs).map
        (fun i => Event.fetched i.chat_id i.get_data_key) :=
  ⟨by decide,
    blocked_skips_single_item.1 c2env _ _ [] (by decide),
    blocked_skips_single_item.2 c2env c2subs⟩

/-- Section returned by the fetch in the C9 scenario. -/
def c9sec : Section :=
  ⟨some 7, some (EnrollVal.int 1), some "AAA", some "S1", none, none, none, []⟩

/-- Fetch collaborator for the C9 scenario. -/
def c9env : TrackingInfo → EnvOutcome := fun _ => EnvOutcome.ok [c9sec]

/-- One subscriber tracking one course, with no previous snapshot. -/
def c9subs : List (Int × UserPreferences) :=
  [(1, UserPreferences.mk "12345678" ["AAA"] [] [])]

/-- A delivery collaborator all of whose sends raise. -/
def delNever : TrackingInfo → Nat → Bool := fun _ _ => false

/-- A delivery collaborator whose first send raises and whose fallback
(second) send succeeds. -/
def c9del : TrackingInfo → Nat → Bool := fun _ n => n == 1

/-- C9 counterexample: when the first chunk's send raises AND the
unguarded fallback error send also raises, the exception escapes
`send_long_message`; the broadcast cycle aborts and the successfully
fetched snapshot is NOT stored, contradicting "never propagates" and
"always stored". -/
theorem delivery_failure_escapes_counterexample :
    send_long_message (fun _ => false) ["status"] "AAA" = Except.error () ∧
    (broadcast_updates c9env delNever c9subs).completed = false ∧
    (broadcast_updates c9env delNever c9subs).subscriptions = c9subs := by
  refine ⟨rfl, by decide, by decide⟩

/-- C9 (amended): `send_long_message` propagates a delivery failure iff
there is at least one chunk and both the first chunk's send and the
unguarded fallback send fail; in every other case delivery failures are
caught, the wrapper returns, the fetched snapshot is handed back and the
scheduler stores it as the item's previous snapshot regardless of
delivery outcome. -/
theorem delivery_error_containment :
    (∀ (del : Nat → Bool) (text_lines : List String) (title : String),
      send_long_message del text_lines title = Except.error () ↔
      (chunkLines MSG_LIMIT text_lines ≠ [] ∧ del 0 = false ∧ del 1 = false)) ∧
    (∀ (env : TrackingInfo → EnvOutcome) (del : Nat → Bool)
       (info : TrackingInfo) (pd : List (String × List Section))
       (current : List Section),
      env info = EnvOutcome.ok current → (del 0 = true ∨ del 1 = true) →
      (process_course_updates env del info pd).1 = Except.ok (some current)) ∧
    (∀ (cid : Int) (sid course : String) (current : List Section)
       (pd : List (String × List Section)) (del : TrackingInfo → Nat → Bool)
       (env : TrackingInfo → EnvOutcome),
      sid ≠ "" →
      env (TrackingInfo.mk cid sid course true []) = EnvOutcome.ok current →
      del (TrackingInfo.mk cid sid course true []) 1 = true →
      ∃ prefs', lookupPy (broadcast_updates env del
          [(cid, UserPreferences.mk sid [course] [] pd)]).subscriptions cid =
        some prefs' ∧
        lookupPy prefs'.previous_data course = some current) := by
  refine ⟨send_error_iff, ?_, ?_⟩
  · intro env del info pd current henv hdel
    exact process_ok_of_delivery env del info pd current henv hdel
  · intro cid sid course current pd del env hsid henv hdel1
    have h1 := process_ok_of_delivery env
      (del (TrackingInfo.mk cid sid course true []))
      (TrackingInfo.mk cid sid course true []) pd current henv (Or.inr hdel1)
    cases hp : process_course_updates env
        (del (TrackingInfo.mk cid sid course true []))
        (TrackingInfo.mk cid sid course true []) pd with
    | mk r evs =>
      rw [hp] at h1
      simp only at h1
      subst h1
      have hb := broadcast_single_course env del cid sid course current pd evs
        (bne_iff_ne.mpr hsid) hp
      rw [hb]
      exact ⟨UserPreferences.mk sid [course] [] (insertPy course current pd),
        by simp [lookupPy], lookupPy_insertPy_self _ _ _⟩

/-- Closed witness for the amended C9 theorem: delivery of the first
chunk fails but the fallback succeeds, and the snapshot is stored
anyway. -/
theorem delivery_error_containment_witness :
    ("12345678" : String) ≠ "" ∧
    c9env (TrackingInfo.mk 1 "12345678" "AAA" true []) =
      EnvOutcome.ok [c9sec] ∧
    c9del (TrackingInfo.mk 1 "12345678" "AAA" true []) 0 = false ∧
    c9del (TrackingInfo.mk 1 "12345678" "AAA" true []) 1 = true ∧
    (∃ prefs', lookupPy (broadcast_updates c9env c9del
        [(1, UserPreferences.mk "12345678" ["AAA"] [] [])]).subscriptions 1 =
      some prefs' ∧
      lookupPy prefs'.previous_data "AAA" = some [c9sec]) :=
  ⟨by decide, rfl, by decide, by decide,
    delivery_error_containment.2.2 1 "12345678" "AAA" [c9sec] [] c9del c9env
      (by decide) rfl (by decide)⟩
